import Mathlib

/-!
SPTAG `WorkSpace.h`: the visited set and the per-query workspace.

A shallow embedding of `AnnService/inc/Core/Common/WorkSpace.h`.

* `SizeType` and `int` are 32-bit signed integers, embedded as `Int`; `unsigned` values are
  embedded as `Nat` below `2 ^ 32`, with the reductions modulo `2 ^ 32` written out.
* The hash table (`m_hashTable`) is a `List Int`; a pointer into it (the `hashTable`
  argument of `_CheckAndSet`) is the offset of the pointed slot from `m_hashTable.get()`.
* A member function that can fail to return normally yields an `Outcome`; the recursion of
  `_CheckAndSet` and the loop of `Init` are driven by a fuel argument.
-/

namespace SPTAG.COMMON

/-! ## Machine integers -/

/-- Largest value of a 32-bit `int`. -/
def INT_MAX : Int := 2147483647

/-- Conversion of an `int` to `unsigned`: reduction modulo `2 ^ 32`. -/
def toUnsigned (z : Int) : Nat := (z % 4294967296).toNat

/-- Modelled from the spec: `_rotl`, the 32-bit left rotation used by `hash_func`, is declared
outside `WorkSpace.h` (the spec calls it `rotateLeft`). The bits shifted out on the left come
back on the right. -/
def _rotl (value : Nat) (shift : Nat) : Nat :=
  ((value <<< shift) ||| (value >>> (32 - shift))) % 4294967296

/-- What a call of a member function does: it never returns (`diverges`), it stops inside the
call at a signed overflow or at an allocation that cannot be made (`fails`, with the object as
the last completed statement left it), or it returns normally. -/
inductive Outcome (σ : Type) where
  | diverges : Outcome σ
  | fails (s : σ) : Outcome σ
  | returns (s : σ) : Outcome σ
  deriving DecidableEq, Repr

/-- The object after the call, when the call ends at all. -/
def Outcome.state? {σ : Type} : Outcome σ → Option σ
  | Outcome.diverges => none
  | Outcome.fails s => some s
  | Outcome.returns s => some s

/-! ## `OptHashPosVector` -/

/-- Max loop number in one hash block. -/
def m_maxLoop : Nat := 8

/-- The fields of `class OptHashPosVector`. Slots `[0, m_poolSize + 1)` of `m_hashTable` are the
first block, slots `[m_poolSize + 1, 2 * (m_poolSize + 1))` the second block. -/
structure OptHashPosVector where
  m_secondHash : Bool
  m_poolSize : Int
  m_hashTable : List Int
  deriving DecidableEq, Repr

/-- The effect of `memset(p, 0, sizeof(SizeType) * n)` on the table that starts at `p`: the first
`n` slots become 0. The list keeps its length (bytes past the end are not modelled). -/
def memsetZero (tbl : List Int) (n : Nat) : List Int :=
  List.replicate (min n tbl.length) 0 ++ tbl.drop n

namespace OptHashPosVector

/-- Source: `hash_func2`, `(idx + loop) & m_poolSize` in `unsigned` arithmetic. -/
def hash_func2 (s : OptHashPosVector) (idx : Nat) (loop : Int) : Nat :=
  ((idx + toUnsigned loop) % 4294967296) &&& toUnsigned s.m_poolSize

/-- Source: `hash_func`, `((unsigned)(idx * 99991) + _rotl(idx, 2) + 101) & m_poolSize`. -/
def hash_func (s : OptHashPosVector) (idx : Nat) : Nat :=
  (((idx * 99991) % 4294967296 + _rotl idx 2 + 101) % 4294967296) &&& toUnsigned s.m_poolSize

/-- Source: `clear`. With `m_secondHash` unset only the first block is zeroed; otherwise the
flag is unset and both blocks are zeroed. -/
def clear (s : OptHashPosVector) : OptHashPosVector :=
  if !s.m_secondHash then
    { s with m_hashTable := memsetZero s.m_hashTable (s.m_poolSize + 1).toNat }
  else
    { s with m_secondHash := false,
             m_hashTable := memsetZero s.m_hashTable (2 * (s.m_poolSize + 1)).toNat }

/-- The `while (size != 0) { ex++; size >>= 1; }` loop of `Init`, started with `ex` shifts
already counted; `>>>` with a `Nat` count is the arithmetic shift. One unit of fuel pays for
one test of the loop condition; `none` means the fuel ran out. -/
def InitLoop : Nat → Int → Nat → Option Nat
  | 0, _, _ => none
  | fuel + 1, size, ex =>
    if size != 0 then InitLoop fuel (size >>> (1 : Nat)) (ex + 1) else some ex

/-- Source: `Init`. `mem` gives the contents of the storage returned by `new SizeType[...]`,
which C++ leaves uninitialised. `1 << (ex + 1)` needs `ex + 1 <= 30` to be an `int`, and the
slot count `(m_poolSize + 1) * 2` must be an `int` as well; otherwise the call fails at that
statement. -/
def Init (fuel : Nat) (mem : Nat → Int) (s : OptHashPosVector) (size : Int) :
    Outcome OptHashPosVector :=
  match InitLoop fuel size 0 with
  | none => Outcome.diverges
  | some ex =>
    let s1 := { s with m_secondHash := true }
    if INT_MAX < 2 ^ (ex + 1) then Outcome.fails s1
    else
      let s2 := { s1 with m_poolSize := 2 ^ (ex + 1) - 1 }
      if INT_MAX < (s2.m_poolSize + 1) * 2 then Outcome.fails s2
      else
        Outcome.returns
          (clear { s2 with m_hashTable :=
            (List.range ((s2.m_poolSize + 1) * 2).toNat).map mem })

/-- The `for (int loop = 0; loop < m_maxLoop; ++loop)` loop of `_CheckAndSet` with `n`
iterations left, on the block that starts at offset `hashTable`. `some (1, _)` and
`some (0, _)` are the two `return`s inside the loop, `none` means the loop ran to its end. -/
def probeLoop (s : OptHashPosVector) (hashTable : Nat) (idx : Int) :
    Nat → Int → Nat → Option (Int × OptHashPosVector)
  | 0, _, _ => none
  | n + 1, loop, index =>
    if s.m_hashTable.getD (hashTable + index) 0 = 0 then
      -- index first match and record it.
      some (1, { s with m_hashTable := s.m_hashTable.set (hashTable + index) idx })
    else if s.m_hashTable.getD (hashTable + index) 0 = idx then
      -- Hit this item in hash table.
      some (0, s)
    else
      -- Get next hash position.
      probeLoop s hashTable idx n (loop + 1) (hash_func2 s index loop)

/-- Source: `_CheckAndSet(hashTable, idx)`; `hashTable` is the offset of the block, so
`hashTable == m_hashTable.get()` reads `hashTable = 0` and `m_hashTable.get() + m_poolSize + 1`
is the offset `m_poolSize + 1` (offsets before the table are not modelled). One unit of fuel
pays for one activation; `none` means the fuel ran out. -/
def _CheckAndSet : Nat → OptHashPosVector → Nat → Int → Option (Int × OptHashPosVector)
  | 0, _, _, _ => none
  | fuel + 1, s, hashTable, idx =>
    match probeLoop s hashTable idx m_maxLoop 0 (hash_func s (toUnsigned idx)) with
    | some r => some r
    | none =>
      if hashTable = 0 then
        -- Use second hash block.
        _CheckAndSet fuel { s with m_secondHash := true } (s.m_poolSize + 1).toNat idx
      else
        -- Do not include this item.
        some (-1, s)

/-- Source: `CheckAndSet`, `_CheckAndSet(m_hashTable.get(), idx + 1) == 0`. -/
def CheckAndSet (fuel : Nat) (s : OptHashPosVector) (idx : Int) :
    Option (Bool × OptHashPosVector) :=
  (_CheckAndSet fuel s 0 (idx + 1)).map fun r => (r.1 == 0, r.2)

end OptHashPosVector

/-! ## `WorkSpace` -/

/-- The two member functions of `Heap<HeapCell>` (`Heap.h`, not part of this file) that
`WorkSpace` calls, over any representation `H` of a heap. -/
structure HeapOps (H : Type) where
  Resize : H → Int → H
  clear : H → H

/-- The fields of `struct WorkSpace`. -/
structure WorkSpace (H : Type) where
  nodeCheckStatus : OptHashPosVector
  m_iNumOfContinuousNoBetterPropagation : Int
  m_iContinuousLimit : Int
  m_iNumberOfTreeCheckedLeaves : Int
  m_iNumberOfCheckedLeaves : Int
  m_iMaxCheck : Int
  m_NGQueue : H
  m_SPTQueue : H
  deriving DecidableEq, Repr

namespace WorkSpace

variable {H : Type}

/-- Source: `WorkSpace::Initialize`. The products `maxCheck * 10` and `maxCheck * 30` are `int`
products; the call fails at the statement whose product is not an `int` (with a negative
`maxCheck` the call never gets past `Init`). `dataSize` is not read. -/
def Initialize (ops : HeapOps H) (fuel : Nat) (mem : Nat → Int) (ws : WorkSpace H)
    (maxCheck : Int) (dataSize : Int) : Outcome (WorkSpace H) :=
  match OptHashPosVector.Init fuel mem ws.nodeCheckStatus maxCheck with
  | Outcome.diverges => Outcome.diverges
  | Outcome.fails s => Outcome.fails { ws with nodeCheckStatus := s }
  | Outcome.returns s =>
    let ws1 := { ws with nodeCheckStatus := s }
    if INT_MAX < maxCheck * 10 then Outcome.fails ws1
    else
      let ws2 := { ws1 with m_SPTQueue := ops.Resize ws1.m_SPTQueue (maxCheck * 10) }
      if INT_MAX < maxCheck * 30 then Outcome.fails ws2
      else
        let ws3 := { ws2 with m_NGQueue := ops.Resize ws2.m_NGQueue (maxCheck * 30) }
        Outcome.returns
          { ws3 with
            m_iNumberOfTreeCheckedLeaves := 0,
            m_iNumberOfCheckedLeaves := 0,
            m_iContinuousLimit := Int.tdiv maxCheck 64,
            m_iMaxCheck := maxCheck,
            m_iNumOfContinuousNoBetterPropagation := 0 }

/-- Source: `WorkSpace::Reset`. -/
def Reset (ops : HeapOps H) (ws : WorkSpace H) (maxCheck : Int) : WorkSpace H :=
  { ws with
    nodeCheckStatus := ws.nodeCheckStatus.clear,
    m_SPTQueue := ops.clear ws.m_SPTQueue,
    m_NGQueue := ops.clear ws.m_NGQueue,
    m_iNumOfContinuousNoBetterPropagation := 0,
    m_iContinuousLimit := Int.tdiv maxCheck 64,
    m_iNumberOfTreeCheckedLeaves := 0,
    m_iNumberOfCheckedLeaves := 0,
    m_iMaxCheck := maxCheck }

/-- Source: `WorkSpace::CheckAndSet`, which forwards to the visited set. -/
def CheckAndSet (fuel : Nat) (ws : WorkSpace H) (idx : Int) : Option (Bool × WorkSpace H) :=
  (ws.nodeCheckStatus.CheckAndSet fuel idx).map fun r => (r.1, { ws with nodeCheckStatus := r.2 })

/-- A call of the traversal algorithm on a workspace. -/
inductive Call where
  | CheckAndSet (idx : Int) : Call
  | Reset (maxCheck : Int) : Call
  deriving DecidableEq, Repr

/-- The workspace after one call; `none` when `CheckAndSet` runs out of fuel. -/
def call (ops : HeapOps H) (fuel : Nat) (ws : WorkSpace H) : Call → Option (WorkSpace H)
  | Call.CheckAndSet idx => (ws.CheckAndSet fuel idx).map fun r => r.2
  | Call.Reset maxCheck => some (ws.Reset ops maxCheck)

/-- The workspace after a sequence of calls, first call first. -/
def run (ops : HeapOps H) (fuel : Nat) : WorkSpace H → List Call → Option (WorkSpace H)
  | ws, [] => some ws
  | ws, c :: cs =>
    match ws.call ops fuel c with
    | none => none
    | some ws1 => run ops fuel ws1 cs

end WorkSpace

namespace OptHashPosVector

/-- A public call on the visited set. -/
inductive Call where
  | CheckAndSet (idx : Int) : Call
  | clear : Call
  deriving DecidableEq, Repr

/-- The visited set after one public call; `none` when `CheckAndSet` runs out of fuel. -/
def call (fuel : Nat) (s : OptHashPosVector) : Call → Option OptHashPosVector
  | Call.CheckAndSet idx => (s.CheckAndSet fuel idx).map fun r => r.2
  | Call.clear => some s.clear

/-- The visited set after a sequence of public calls, first call first. -/
def run (fuel : Nat) : OptHashPosVector → List Call → Option OptHashPosVector
  | s, [] => some s
  | s, c :: cs =>
    match s.call fuel c with
    | none => none
    | some s1 => run fuel s1 cs

/-- The table of `t` extends the table of `s`: same mask, same number of slots, and every
slot that is occupied in `s` holds the same value in `t`. -/
def Extends (s t : OptHashPosVector) : Prop :=
  t.m_poolSize = s.m_poolSize ∧ t.m_hashTable.length = s.m_hashTable.length ∧
    ∀ i, s.m_hashTable.getD i 0 ≠ 0 → t.m_hashTable.getD i 0 = s.m_hashTable.getD i 0

/-- The shape of the object after a successful `Init`: the mask is `P`, the table has two
blocks of `P + 1` slots, and the second block is all zero while `m_secondHash` is unset. -/
def WellFormed (s : OptHashPosVector) (P : Nat) : Prop :=
  s.m_poolSize = (P : Int) ∧ P < 2147483648 ∧ s.m_hashTable.length = 2 * (P + 1) ∧
    (s.m_secondHash = false → ∀ i, P + 1 ≤ i → s.m_hashTable.getD i 0 = 0)

/-- Every value stored in the table is found again by `_CheckAndSet`. -/
def Findable (s : OptHashPosVector) : Prop :=
  ∀ v : Int, v ≠ 0 → v ∈ s.m_hashTable → ∃ t, _CheckAndSet 2 s 0 v = some (0, t)

/-- The invariant of the visited set between public calls. -/
def Invariant (s : OptHashPosVector) : Prop :=
  ∃ P : Nat, WellFormed s P ∧ Findable s

/-- The id `x` was recorded by a `CheckAndSet(x)` call of `calls` (run from `s1`) that found an
empty slot, and no `clear` was called after it. -/
def RecordedSince (fuel : Nat) (s1 : OptHashPosVector) (calls : List Call) (x : Int) : Prop :=
  ∃ (pre post : List Call) (mid mid1 : OptHashPosVector),
    calls = pre ++ Call.CheckAndSet x :: post ∧ Call.clear ∉ post ∧
    run fuel s1 pre = some mid ∧ _CheckAndSet fuel mid 0 (x + 1) = some (1, mid1)

end OptHashPosVector

/-! ## Specification vocabulary and sample objects -/

/-- The bit length of `n` in the words of the spec: the number of right shifts by one needed
to reach 0. -/
def bitlength (n : Nat) : Nat :=
  if n = 0 then 0 else bitlength (n / 2) + 1
decreasing_by omega

/-- The values of a C++ `float` as comparisons see them: NaN, the two infinities, and the
finite values, each of which is a rational number (the two zeros compare equal and are one
value here). No arithmetic is done on distances in `WorkSpace.h`, only comparisons. -/
inductive FloatVal where
  | nan : FloatVal
  | negInf : FloatVal
  | num (q : Rat) : FloatVal
  | posInf : FloatVal
  deriving DecidableEq, Repr

/-- The comparison `a < b` of two `float`s: false as soon as one side is NaN. -/
def FloatVal.lt : FloatVal → FloatVal → Bool
  | FloatVal.nan, _ => false
  | _, FloatVal.nan => false
  | FloatVal.negInf, FloatVal.negInf => false
  | FloatVal.negInf, _ => true
  | FloatVal.num _, FloatVal.negInf => false
  | FloatVal.num a, FloatVal.num b => decide (a < b)
  | FloatVal.num _, FloatVal.posInf => true
  | FloatVal.posInf, _ => false

/-- The comparison `a <= b` of two `float`s: false as soon as one side is NaN. -/
def FloatVal.le : FloatVal → FloatVal → Bool
  | FloatVal.nan, _ => false
  | _, FloatVal.nan => false
  | FloatVal.negInf, _ => true
  | FloatVal.num _, FloatVal.negInf => false
  | FloatVal.num a, FloatVal.num b => decide (a ≤ b)
  | FloatVal.num _, FloatVal.posInf => true
  | FloatVal.posInf, FloatVal.posInf => true
  | FloatVal.posInf, _ => false

/-- Source: `struct HeapCell`, a node and its `float` distance. -/
structure HeapCell where
  node : Int
  distance : FloatVal
  deriving DecidableEq, Repr

/-- Modelled from the spec: the bounded heap `Heap<T>` of `Heap.h`, which is not part of this
file, as far as `WorkSpace` uses it: the number of entries its backing storage holds and the
entries. -/
structure Heap (T : Type) where
  capacity : Int
  data : List T
  deriving DecidableEq, Repr

/-- Modelled from the spec: `Resize(capacity)` of `Heap.h` sets/increases the backing storage to
hold up to `capacity` entries. -/
def Heap.Resize {T : Type} (h : Heap T) (capacity : Int) : Heap T :=
  { h with capacity := max h.capacity capacity }

/-- Modelled from the spec: `Clear()` of `Heap.h` empties the heap and keeps the backing
storage. -/
def Heap.clear {T : Type} (h : Heap T) : Heap T :=
  { h with data := [] }

/-- The heap functions `WorkSpace` calls, on the spec's heap. -/
def heapOps : HeapOps (Heap HeapCell) :=
  { Resize := Heap.Resize, clear := Heap.clear }

/-- Sample contents of freshly allocated storage: no slot is zero. -/
def sampleMem : Nat → Int := fun n => n + 7

/-- A sample visited set on which `Init` has not run yet. -/
def sampleVec : OptHashPosVector :=
  { m_secondHash := false, m_poolSize := 0, m_hashTable := [] }

/-- A sample workspace on which `Initialize` has not run yet, with stale counters. -/
def sampleWorkSpace : WorkSpace (Heap HeapCell) :=
  { nodeCheckStatus := sampleVec,
    m_iNumOfContinuousNoBetterPropagation := 3,
    m_iContinuousLimit := 4,
    m_iNumberOfTreeCheckedLeaves := 5,
    m_iNumberOfCheckedLeaves := 6,
    m_iMaxCheck := 7,
    m_NGQueue := { capacity := 0, data := [] },
    m_SPTQueue := { capacity := 0, data := [] } }

/-- The visited set right after `Init(0)`: mask 1, four empty slots. -/
def sampleInit0 : OptHashPosVector :=
  { m_secondHash := false, m_poolSize := 1, m_hashTable := [0, 0, 0, 0] }

/-- The visited set after `Init(0)` and `CheckAndSet` of the ids 0, 1, 2, 3: every slot of both
blocks is occupied. -/
def sampleFull : OptHashPosVector :=
  { m_secondHash := true, m_poolSize := 1, m_hashTable := [1, 2, 3, 4] }

/-- The sample workspace right after `Initialize(0, 5)`. -/
def sampleInitWorkSpace : WorkSpace (Heap HeapCell) :=
  { nodeCheckStatus := sampleInit0,
    m_iNumOfContinuousNoBetterPropagation := 0,
    m_iContinuousLimit := 0,
    m_iNumberOfTreeCheckedLeaves := 0,
    m_iNumberOfCheckedLeaves := 0,
    m_iMaxCheck := 0,
    m_NGQueue := { capacity := 0, data := [] },
    m_SPTQueue := { capacity := 0, data := [] } }

/-- The sample workspace after `Initialize(0, 5)` and `CheckAndSet` of the ids 0, 1, 2, 3, 4:
the second block is active and written, and id 4 found no slot. -/
def sampleFullWorkSpace : WorkSpace (Heap HeapCell) :=
  { sampleInitWorkSpace with nodeCheckStatus := sampleFull }

end SPTAG.COMMON

namespace SPTAG.COMMON

/-! ## The slots a call touches -/

namespace OptHashPosVector

/-- The slots of a block, as offsets from its start, that the probe loop of `_CheckAndSet`
examines when it runs through `n` iterations from `index`, in order: the loop examines
`index` and goes on with `hash_func2(index, loop)`. -/
def probeIndices (s : OptHashPosVector) : Nat → Int → Nat → List Nat
  | 0, _, _ => []
  | n + 1, loop, index => index :: probeIndices s n (loop + 1) (hash_func2 s index loop)

/-- The loop `probeLoop` together with the slots of `m_hashTable` it reads or writes, in
order. A slot is written only right after it was read. -/
def probeLoopLog (s : OptHashPosVector) (hashTable : Nat) (idx : Int) :
    Nat → Int → Nat → Option (Int × OptHashPosVector) × List Nat
  | 0, _, _ => (none, [])
  | n + 1, loop, index =>
    if s.m_hashTable.getD (hashTable + index) 0 = 0 then
      (some (1, { s with m_hashTable := s.m_hashTable.set (hashTable + index) idx }),
        [hashTable + index])
    else if s.m_hashTable.getD (hashTable + index) 0 = idx then
      (some (0, s), [hashTable + index])
    else
      ((probeLoopLog s hashTable idx n (loop + 1) (hash_func2 s index loop)).1,
        (hashTable + index) ::
          (probeLoopLog s hashTable idx n (loop + 1) (hash_func2 s index loop)).2)

/-- The function `_CheckAndSet` together with the slots of `m_hashTable` it reads or writes,
in order. -/
def _CheckAndSetLog :
    Nat → OptHashPosVector → Nat → Int → Option (Int × OptHashPosVector) × List Nat
  | 0, _, _, _ => (none, [])
  | fuel + 1, s, hashTable, idx =>
    match probeLoopLog s hashTable idx m_maxLoop 0 (hash_func s (toUnsigned idx)) with
    | (some r, log) => (some r, log)
    | (none, log) =>
      if hashTable = 0 then
        ((_CheckAndSetLog fuel { s with m_secondHash := true } (s.m_poolSize + 1).toNat idx).1,
          log ++
            (_CheckAndSetLog fuel { s with m_secondHash := true } (s.m_poolSize + 1).toNat idx).2)
      else
        (some (-1, s), log)

/-- The full clear in the words of the spec: both blocks are zeroed and the second block is
marked inactive, whatever `m_secondHash` was. -/
def clearBoth (s : OptHashPosVector) : OptHashPosVector :=
  { s with m_secondHash := false,
           m_hashTable := memsetZero s.m_hashTable (2 * (s.m_poolSize + 1)).toNat }

end OptHashPosVector

/-- The 32-bit left rotation in arithmetic terms: the low `32 - k` bits move up by `k` places
and the high `k` bits come back at the bottom. -/
def rotateLeft32 (v k : Nat) : Nat :=
  (v * 2 ^ k) % 4294967296 + (v % 4294967296) / 2 ^ (32 - k)

/-! ## The candidate heap -/

/-- Source: `HeapCell::operator <`, `distance < rhs.distance`. -/
def HeapCell.lt (a rhs : HeapCell) : Bool :=
  a.distance.lt rhs.distance

/-- Source: `HeapCell::operator >`, `distance > rhs.distance`. -/
def HeapCell.gt (a rhs : HeapCell) : Bool :=
  rhs.distance.lt a.distance

namespace Heap

/-- The number of entries in the heap. -/
def size (h : Heap HeapCell) : Nat :=
  h.data.length

end Heap

end SPTAG.COMMON
namespace SPTAG.COMMON
open OptHashPosVector

theorem bitlength_zero : bitlength 0 = 0 := by
  rw [bitlength]; simp

theorem bitlength_pos (n : Nat) (h : n ≠ 0) : bitlength n = bitlength (n / 2) + 1 := by
  rw [bitlength]; simp [h]

theorem lt_two_pow_bitlength (n : Nat) : n < 2 ^ bitlength n := by
  induction n using Nat.strong_induction_on with
  | _ n ih =>
    by_cases h : n = 0
    · subst h; rw [bitlength_zero]; norm_num
    · rw [bitlength_pos n h, pow_succ]
      have := ih (n / 2) (by omega)
      omega

theorem bitlength_le_of_lt (n : Nat) : ∀ j : Nat, n < 2 ^ j → bitlength n ≤ j := by
  induction n using Nat.strong_induction_on with
  | _ n ih =>
    intro j hj
    by_cases h : n = 0
    · subst h; rw [bitlength_zero]; exact Nat.zero_le _
    · rw [bitlength_pos n h]
      cases j with
      | zero => simp at hj; omega
      | succ j =>
        have := ih (n / 2) (by omega) j (by rw [pow_succ] at hj; omega)
        omega

theorem bitlength_eq (n k : Nat) (h1 : 2 ^ k ≤ n) (h2 : n < 2 ^ (k + 1)) :
    bitlength n = k + 1 := by
  have hle := bitlength_le_of_lt n (k + 1) h2
  have hlt : 2 ^ k < 2 ^ bitlength n := lt_of_le_of_lt h1 (lt_two_pow_bitlength n)
  have := (Nat.pow_lt_pow_iff_right (by norm_num : 1 < 2)).mp hlt
  omega

theorem InitLoop_natCast (fuel : Nat) : ∀ (n ex : Nat), bitlength n < fuel →
    InitLoop fuel (n : Int) ex = some (ex + bitlength n) := by
  induction fuel with
  | zero => intro n ex h; omega
  | succ fuel ih =>
    intro n ex h
    by_cases hn : n = 0
    · subst hn; simp [InitLoop, bitlength_zero]
    · rw [bitlength_pos n hn] at h ⊢
      have h1 : ((n : Int) != 0) = true := by simp; exact_mod_cast hn
      have h2 : (n : Int) >>> (1 : Nat) = ((n / 2 : Nat) : Int) := by
        rw [Int.shiftRight_eq_div_pow]; norm_num
      rw [InitLoop, if_pos h1, h2, ih (n / 2) (ex + 1) (by omega)]
      congr 1; omega
end SPTAG.COMMON
namespace SPTAG.COMMON
open OptHashPosVector

theorem clear_poolSize (s : OptHashPosVector) : s.clear.m_poolSize = s.m_poolSize := by
  unfold OptHashPosVector.clear; split <;> rfl

theorem two_pow_le_int (a b : Nat) (h : a ≤ b) : (2 : Int) ^ a ≤ 2 ^ b :=
  pow_le_pow_right₀ (by norm_num) h

theorem Init_returns_of_loop (fuel : Nat) (mem : Nat → Int) (s : OptHashPosVector) (size : Int)
    (ex : Nat) (h : InitLoop fuel size 0 = some ex) (hex : ex ≤ 28) :
    Init fuel mem s size = Outcome.returns
      (clear { m_secondHash := true, m_poolSize := 2 ^ (ex + 1) - 1,
               m_hashTable := (List.range (2 ^ (ex + 2))).map mem }) := by
  have h30 : ¬ INT_MAX < (2 : Int) ^ (ex + 1) := by
    have := two_pow_le_int (ex + 1) 30 (by omega)
    unfold INT_MAX; norm_num at this ⊢; linarith
  have e2 : ((2 : Int) ^ (ex + 1) - 1 + 1) * 2 = ((2 ^ (ex + 2) : Nat) : Int) := by
    push_cast; ring
  have h31 : ¬ INT_MAX < ((2 : Int) ^ (ex + 1) - 1 + 1) * 2 := by
    have := two_pow_le_int (ex + 2) 30 (by omega)
    rw [e2]; push_cast
    unfold INT_MAX; norm_num at this ⊢; linarith
  unfold Init
  rw [h]
  rw [e2] at h31
  simp only [if_neg h30, if_neg h31, e2, Int.toNat_ofNat]

end SPTAG.COMMON
namespace SPTAG.COMMON
open OptHashPosVector

/-! ### `Init` on a non-negative size -/

theorem InitLoop_of_nonneg (fuel : Nat) (size : Int) (h0 : 0 ≤ size)
    (hf : bitlength size.toNat < fuel) :
    InitLoop fuel size 0 = some (bitlength size.toNat) := by
  have := InitLoop_natCast fuel size.toNat 0 hf
  rw [Int.toNat_of_nonneg h0] at this
  simpa using this

theorem lt_two_pow_bitlength_int (size : Int) (h0 : 0 ≤ size) :
    size < 2 ^ bitlength size.toNat := by
  have := lt_two_pow_bitlength size.toNat
  have h2 : (size.toNat : Int) < ((2 ^ bitlength size.toNat : Nat) : Int) := by exact_mod_cast this
  rw [Int.toNat_of_nonneg h0] at h2
  simpa using h2

theorem Init_returns_of_nonneg (fuel : Nat) (mem : Nat → Int) (s : OptHashPosVector)
    (size : Int) (h0 : 0 ≤ size) (h1 : size < 2 ^ 28) (hf : bitlength size.toNat < fuel) :
    Init fuel mem s size = Outcome.returns
      (clear { m_secondHash := true, m_poolSize := 2 ^ (bitlength size.toNat + 1) - 1,
               m_hashTable := (List.range (2 ^ (bitlength size.toNat + 2))).map mem }) := by
  apply Init_returns_of_loop fuel mem s size _ (InitLoop_of_nonneg fuel size h0 hf)
  apply bitlength_le_of_lt
  have : (size.toNat : Int) < 2 ^ 28 := by rw [Int.toNat_of_nonneg h0]; exact h1
  exact_mod_cast this

/-- When the loop of `Init` ends on a non-negative size, it has counted `bitlength` shifts,
whatever the fuel. -/
theorem InitLoop_some_natCast (fuel : Nat) : ∀ (n ex r : Nat),
    InitLoop fuel (n : Int) ex = some r → r = ex + bitlength n := by
  induction fuel with
  | zero => intro n ex r h; simp [InitLoop] at h
  | succ fuel ih =>
    intro n ex r h
    by_cases hn : n = 0
    · subst hn
      simp [InitLoop] at h
      rw [bitlength_zero, ← h]
      rfl
    · have h1 : ((n : Int) != 0) = true := by simp; exact_mod_cast hn
      have h2 : (n : Int) >>> (1 : Nat) = ((n / 2 : Nat) : Int) := by
        rw [Int.shiftRight_eq_div_pow]; norm_num
      rw [InitLoop, if_pos h1, h2] at h
      rw [ih (n / 2) (ex + 1) r h, bitlength_pos n hn]
      omega

/-- A returning `Init` on a non-negative size had a size below `2^28`. -/
theorem Init_returns_lt (fuel : Nat) (mem : Nat → Int) (s t : OptHashPosVector) (size : Int)
    (h0 : 0 ≤ size) (h : Init fuel mem s size = Outcome.returns t) : size < 2 ^ 28 := by
  unfold Init at h
  split at h
  · cases h
  · rename_i ex hloop
    simp only at h
    split at h
    · cases h
    · split at h
      · cases h
      · rename_i h31
        have hex : ex ≤ 28 := by
          by_contra hcon
          apply h31
          have h2 : (2 : Int) ^ 30 ≤ 2 ^ (ex + 1) := two_pow_le_int 30 (ex + 1) (by omega)
          have h3 : ((2 : Int) ^ (ex + 1) - 1 + 1) * 2 = 2 * 2 ^ (ex + 1) := by ring
          show INT_MAX < ((2 : Int) ^ (ex + 1) - 1 + 1) * 2
          rw [h3]
          unfold INT_MAX
          norm_num at h2 ⊢
          linarith
        have hcast : size = ((size.toNat : Nat) : Int) := (Int.toNat_of_nonneg h0).symm
        rw [hcast] at hloop
        have hbl := InitLoop_some_natCast fuel size.toNat 0 ex hloop
        have hlt := lt_two_pow_bitlength_int size h0
        have hle : (2 : Int) ^ bitlength size.toNat ≤ 2 ^ 28 :=
          two_pow_le_int _ _ (by omega)
        exact lt_of_lt_of_le hlt hle

end SPTAG.COMMON
namespace SPTAG.COMMON
namespace OptHashPosVector

/-! ### Slots, masks and the probe loop -/

theorem getD_set_self (l : List Int) (p : Nat) (v : Int) (h : p < l.length) :
    (l.set p v).getD p 0 = v := by
  simp [List.getD_eq_getElem?_getD, List.getElem?_set, h]

theorem getD_set_of_ne (l : List Int) (p i : Nat) (v : Int) (h : p ≠ i) :
    (l.set p v).getD i 0 = l.getD i 0 := by
  simp [List.getD_eq_getElem?_getD, List.getElem?_set, h]

theorem mem_of_getD_ne_zero (l : List Int) (i : Nat) (h : l.getD i 0 ≠ 0) : l.getD i 0 ∈ l := by
  by_cases hi : i < l.length
  · rw [List.getD_eq_getElem l 0 hi]; exact List.getElem_mem hi
  · exfalso; apply h
    simp [List.getD_eq_getElem?_getD, List.getElem?_eq_none (not_lt.mp hi)]

theorem toUnsigned_natCast (P : Nat) (h : P < 2147483648) : toUnsigned (P : Int) = P := by
  unfold toUnsigned
  rw [Int.emod_eq_of_lt (by positivity) (by omega)]
  simp

theorem hash_func_le (s : OptHashPosVector) (P : Nat) (hP : s.m_poolSize = (P : Int))
    (hlt : P < 2147483648) (idx : Nat) : hash_func s idx ≤ P := by
  unfold hash_func
  rw [hP, toUnsigned_natCast P hlt]
  exact Nat.and_le_right

theorem hash_func2_le (s : OptHashPosVector) (P : Nat) (hP : s.m_poolSize = (P : Int))
    (hlt : P < 2147483648) (idx : Nat) (loop : Int) : hash_func2 s idx loop ≤ P := by
  unfold hash_func2
  rw [hP, toUnsigned_natCast P hlt]
  exact Nat.and_le_right

theorem hash_func2_congr (s t : OptHashPosVector) (h : t.m_poolSize = s.m_poolSize)
    (idx : Nat) (loop : Int) : hash_func2 t idx loop = hash_func2 s idx loop := by
  unfold hash_func2; rw [h]

theorem hash_func_congr (s t : OptHashPosVector) (h : t.m_poolSize = s.m_poolSize)
    (idx : Nat) : hash_func t idx = hash_func s idx := by
  unfold hash_func; rw [h]

theorem Extends.refl (s : OptHashPosVector) : Extends s s :=
  ⟨rfl, rfl, fun _ _ => rfl⟩

theorem Extends.trans {s t u : OptHashPosVector} (h1 : Extends s t) (h2 : Extends t u) :
    Extends s u := by
  refine ⟨h2.1.trans h1.1, h2.2.1.trans h1.2.1, fun i hi => ?_⟩
  have e1 := h1.2.2 i hi
  have e2 := h2.2.2 i (by rw [e1]; exact hi)
  rw [e2, e1]

theorem Extends.anyFlag {s t : OptHashPosVector} (h : Extends s t) (a b : Bool) :
    Extends { s with m_secondHash := a } { t with m_secondHash := b } := h

/-- A hit stays a hit when the table is extended. -/
theorem probeLoop_hit_of_extends (s t : OptHashPosVector) (b : Nat) (v : Int)
    (h : Extends s t) : ∀ (n : Nat) (loop : Int) (index : Nat) (s1 : OptHashPosVector),
    probeLoop s b v n loop index = some (0, s1) →
    probeLoop t b v n loop index = some (0, t) := by
  intro n
  induction n with
  | zero => intro loop index s1 hs; simp [probeLoop] at hs
  | succ n ih =>
    intro loop index s1 hs
    unfold probeLoop at hs ⊢
    by_cases h0 : s.m_hashTable.getD (b + index) 0 = 0
    · rw [if_pos h0] at hs; simp at hs
    · have ht := h.2.2 (b + index) h0
      rw [if_neg h0] at hs
      rw [ht, if_neg h0]
      by_cases hv : s.m_hashTable.getD (b + index) 0 = v
      · rw [if_pos hv]
      · rw [if_neg hv] at hs
        rw [if_neg hv, hash_func2_congr s t h.1]
        exact ih _ _ s1 hs

/-- A block whose probes are exhausted stays exhausted when the table is extended. -/
theorem probeLoop_none_of_extends (s t : OptHashPosVector) (b : Nat) (v : Int)
    (h : Extends s t) : ∀ (n : Nat) (loop : Int) (index : Nat),
    probeLoop s b v n loop index = none →
    probeLoop t b v n loop index = none := by
  intro n
  induction n with
  | zero => intro loop index _; simp [probeLoop]
  | succ n ih =>
    intro loop index hs
    unfold probeLoop at hs ⊢
    by_cases h0 : s.m_hashTable.getD (b + index) 0 = 0
    · rw [if_pos h0] at hs; simp at hs
    · have ht := h.2.2 (b + index) h0
      rw [if_neg h0] at hs
      rw [ht, if_neg h0]
      by_cases hv : s.m_hashTable.getD (b + index) 0 = v
      · rw [if_pos hv] at hs; simp at hs
      · rw [if_neg hv] at hs
        rw [if_neg hv, hash_func2_congr s t h.1]
        exact ih _ _ hs

/-- What a return inside the probe loop did to the object. -/
theorem probeLoop_some (s : OptHashPosVector) (P : Nat) (hP : s.m_poolSize = (P : Int))
    (hlt : P < 2147483648) (b : Nat) (v : Int) :
    ∀ (n : Nat) (loop : Int) (index : Nat) (r : Int) (s1 : OptHashPosVector), index ≤ P →
    probeLoop s b v n loop index = some (r, s1) →
    (r = 0 ∧ s1 = s ∧ v ≠ 0 ∧ ∃ p, b ≤ p ∧ p ≤ b + P ∧ s.m_hashTable.getD p 0 = v) ∨
    (r = 1 ∧ ∃ p, b ≤ p ∧ p ≤ b + P ∧ s.m_hashTable.getD p 0 = 0 ∧
      s1 = { s with m_hashTable := s.m_hashTable.set p v }) := by
  intro n
  induction n with
  | zero => intro loop index r s1 _ hs; simp [probeLoop] at hs
  | succ n ih =>
    intro loop index r s1 hi hs
    unfold probeLoop at hs
    by_cases h0 : s.m_hashTable.getD (b + index) 0 = 0
    · rw [if_pos h0] at hs
      simp only [Option.some.injEq, Prod.mk.injEq] at hs
      exact Or.inr ⟨hs.1.symm, b + index, by omega, by omega, h0, hs.2.symm⟩
    · rw [if_neg h0] at hs
      by_cases hv : s.m_hashTable.getD (b + index) 0 = v
      · rw [if_pos hv] at hs
        simp only [Option.some.injEq, Prod.mk.injEq] at hs
        exact Or.inl ⟨hs.1.symm, hs.2.symm, by rw [← hv]; exact h0, b + index, by omega,
          by omega, hv⟩
      · rw [if_neg hv] at hs
        exact ih _ _ r s1 (hash_func2_le s P hP hlt _ _) hs

/-- After the probe loop recorded `v`, the same probe sequence hits `v`. -/
theorem probeLoop_hit_after_record (s : OptHashPosVector) (P : Nat)
    (hP : s.m_poolSize = (P : Int)) (hlt : P < 2147483648) (b : Nat) (v : Int) (hv0 : v ≠ 0)
    (hlen : b + P < s.m_hashTable.length) :
    ∀ (n : Nat) (loop : Int) (index : Nat) (s1 : OptHashPosVector), index ≤ P →
    probeLoop s b v n loop index = some (1, s1) →
    probeLoop s1 b v n loop index = some (0, s1) ∧ Extends s s1 := by
  intro n
  induction n with
  | zero => intro loop index s1 _ hs; simp [probeLoop] at hs
  | succ n ih =>
    intro loop index s1 hi hs
    unfold probeLoop at hs
    by_cases h0 : s.m_hashTable.getD (b + index) 0 = 0
    · rw [if_pos h0] at hs
      simp only [Option.some.injEq, Prod.mk.injEq, true_and] at hs
      subst hs
      have hself : (s.m_hashTable.set (b + index) v).getD (b + index) 0 = v :=
        getD_set_self _ _ _ (by omega)
      refine ⟨?_, rfl, by simp, fun i hne => ?_⟩
      · unfold probeLoop
        simp only [hself, if_neg hv0, if_true]
      · apply getD_set_of_ne
        intro e; subst e; exact hne h0
    · rw [if_neg h0] at hs
      by_cases hv : s.m_hashTable.getD (b + index) 0 = v
      · rw [if_pos hv] at hs; simp at hs
      · rw [if_neg hv] at hs
        obtain ⟨hhit, hext⟩ := ih _ _ s1 (hash_func2_le s P hP hlt _ _) hs
        refine ⟨?_, hext⟩
        unfold probeLoop
        rw [hext.2.2 _ h0, if_neg h0, if_neg hv, hash_func2_congr s s1 hext.1]
        exact hhit

end OptHashPosVector
end SPTAG.COMMON
namespace SPTAG.COMMON
namespace OptHashPosVector

/-! ### `_CheckAndSet` on a well-formed object -/

/-- With fuel for two activations, `_CheckAndSet` on the first block is the probe loop on the
first block followed, when that loop runs to its end, by the probe loop on the second. -/
theorem _CheckAndSet_two_blocks (fuel : Nat) (s : OptHashPosVector) (P : Nat)
    (hP : s.m_poolSize = (P : Int)) (v : Int) :
    _CheckAndSet (fuel + 2) s 0 v =
      match probeLoop s 0 v m_maxLoop 0 (hash_func s (toUnsigned v)) with
      | some r => some r
      | none =>
        match probeLoop { s with m_secondHash := true } (P + 1) v m_maxLoop 0
            (hash_func s (toUnsigned v)) with
        | some r => some r
        | none => some (-1, { s with m_secondHash := true }) := by
  have hb : (s.m_poolSize + 1).toNat = P + 1 := by rw [hP]; omega
  rw [_CheckAndSet]
  cases h1 : probeLoop s 0 v m_maxLoop 0 (hash_func s (toUnsigned v)) with
  | some r => rfl
  | none =>
    simp only [if_true]
    rw [_CheckAndSet, hb]
    have hh : hash_func { s with m_secondHash := true } (toUnsigned v)
        = hash_func s (toUnsigned v) := rfl
    rw [hh]
    cases h2 : probeLoop { s with m_secondHash := true } (P + 1) v m_maxLoop 0
        (hash_func s (toUnsigned v)) with
    | some r => rfl
    | none => simp

theorem WellFormed.setSecondHash {s : OptHashPosVector} {P : Nat} (h : WellFormed s P) :
    WellFormed { s with m_secondHash := true } P :=
  ⟨h.1, h.2.1, h.2.2.1, fun hf => by simp at hf⟩

/-- On a well-formed object `_CheckAndSet` returns one of the three results; it changes at
most one slot, which was empty, and leaves the object well-formed. -/
theorem _CheckAndSet_spec (fuel : Nat) (s : OptHashPosVector) (P : Nat) (hw : WellFormed s P)
    (v : Int) :
    ∃ r s1, _CheckAndSet (fuel + 2) s 0 v = some (r, s1) ∧ Extends s s1 ∧ WellFormed s1 P ∧
      ((r = 0 ∧ v ≠ 0 ∧ v ∈ s.m_hashTable ∧ s1.m_hashTable = s.m_hashTable) ∨
       (r = 1 ∧ ∃ p, p < s.m_hashTable.length ∧ s.m_hashTable.getD p 0 = 0 ∧
          s1.m_hashTable = s.m_hashTable.set p v) ∨
       (r = -1 ∧ s1.m_hashTable = s.m_hashTable)) := by
  obtain ⟨hP, hlt, hlen, hlazy⟩ := hw
  rw [_CheckAndSet_two_blocks fuel s P hP v]
  have hidx := hash_func_le s P hP hlt (toUnsigned v)
  cases h1 : probeLoop s 0 v m_maxLoop 0 (hash_func s (toUnsigned v)) with
  | some rs =>
    obtain ⟨r, s1⟩ := rs
    refine ⟨r, s1, rfl, ?_⟩
    rcases probeLoop_some s P hP hlt 0 v _ _ _ r s1 hidx h1 with
      ⟨hr, hs1, hv0, p, _, _, hp⟩ | ⟨hr, p, _, hpP, hp0, hs1⟩
    · subst hs1
      refine ⟨Extends.refl _, ⟨hP, hlt, hlen, hlazy⟩, Or.inl ⟨hr, hv0, ?_, rfl⟩⟩
      rw [← hp]; exact mem_of_getD_ne_zero _ _ (by rw [hp]; exact hv0)
    · subst hs1
      refine ⟨⟨rfl, by simp, fun i hne => ?_⟩, ⟨hP, hlt, by simp [hlen], fun hf i hi => ?_⟩,
        Or.inr (Or.inl ⟨hr, p, by omega, hp0, rfl⟩)⟩
      · apply getD_set_of_ne
        intro e; subst e; exact hne hp0
      · show (s.m_hashTable.set p v).getD i 0 = 0
        rw [getD_set_of_ne _ _ _ _ (by omega)]
        exact hlazy hf i hi
  | none =>
    simp only
    have hw2 : WellFormed { s with m_secondHash := true } P :=
      WellFormed.setSecondHash ⟨hP, hlt, hlen, hlazy⟩
    cases h2 : probeLoop { s with m_secondHash := true } (P + 1) v m_maxLoop 0
        (hash_func s (toUnsigned v)) with
    | some rs =>
      obtain ⟨r, s1⟩ := rs
      refine ⟨r, s1, rfl, ?_⟩
      rcases probeLoop_some { s with m_secondHash := true } P hP hlt (P + 1) v _ _ _ r s1
        hidx h2 with ⟨hr, hs1, hv0, p, _, _, hp⟩ | ⟨hr, p, _, hpP, hp0, hs1⟩
      · subst hs1
        refine ⟨Extends.refl s, hw2, Or.inl ⟨hr, hv0, ?_, rfl⟩⟩
        have hp2 : s.m_hashTable.getD p 0 = v := hp
        rw [← hp2]; exact mem_of_getD_ne_zero _ _ (by rw [hp2]; exact hv0)
      · subst hs1
        have hp1 : s.m_hashTable.getD p 0 = 0 := hp0
        refine ⟨⟨rfl, by simp, fun i hne => ?_⟩,
          ⟨hP, hlt, by simp [hlen], fun hf => by simp at hf⟩,
          Or.inr (Or.inl ⟨hr, p, by omega, hp1, rfl⟩)⟩
        apply getD_set_of_ne
        intro e; subst e; exact hne hp1
    | none =>
      exact ⟨-1, _, rfl, Extends.refl s, hw2, Or.inr (Or.inr ⟨rfl, rfl⟩)⟩

/-- A value that `_CheckAndSet` finds is still found after the table was extended. -/
theorem _CheckAndSet_hit_of_extends (fuel : Nat) (s t : OptHashPosVector) (P : Nat)
    (hP : s.m_poolSize = (P : Int)) (hext : Extends s t) (v : Int) (s1 : OptHashPosVector)
    (hs : _CheckAndSet (fuel + 2) s 0 v = some (0, s1)) :
    ∃ t1, _CheckAndSet (fuel + 2) t 0 v = some (0, t1) := by
  have hPt : t.m_poolSize = (P : Int) := hext.1.trans hP
  rw [_CheckAndSet_two_blocks fuel s P hP v] at hs
  rw [_CheckAndSet_two_blocks fuel t P hPt v, hash_func_congr s t hext.1]
  cases h1 : probeLoop s 0 v m_maxLoop 0 (hash_func s (toUnsigned v)) with
  | some rs =>
    obtain ⟨r, x⟩ := rs
    rw [h1] at hs
    simp only [Option.some.injEq, Prod.mk.injEq] at hs
    obtain ⟨hr, -⟩ := hs
    subst hr
    rw [probeLoop_hit_of_extends s t 0 v hext _ _ _ x h1]
    exact ⟨_, rfl⟩
  | none =>
    rw [h1] at hs
    simp only at hs
    rw [probeLoop_none_of_extends s t 0 v hext _ _ _ h1]
    simp only
    cases h2 : probeLoop { s with m_secondHash := true } (P + 1) v m_maxLoop 0
        (hash_func s (toUnsigned v)) with
    | some rs =>
      obtain ⟨r, x⟩ := rs
      rw [h2] at hs
      simp only [Option.some.injEq, Prod.mk.injEq] at hs
      obtain ⟨hr, -⟩ := hs
      subst hr
      rw [probeLoop_hit_of_extends { s with m_secondHash := true }
        { t with m_secondHash := true } (P + 1) v (hext.anyFlag true true) _ _ _ x h2]
      exact ⟨_, rfl⟩
    | none =>
      rw [h2] at hs
      simp at hs

/-- A value that `_CheckAndSet` has just recorded is found by the next `_CheckAndSet`. -/
theorem _CheckAndSet_hit_after_record (fuel : Nat) (s : OptHashPosVector) (P : Nat)
    (hw : WellFormed s P) (v : Int) (hv0 : v ≠ 0) (s1 : OptHashPosVector)
    (hs : _CheckAndSet (fuel + 2) s 0 v = some (1, s1)) :
    ∃ t, _CheckAndSet (fuel + 2) s1 0 v = some (0, t) := by
  obtain ⟨hP, hlt, hlen, hlazy⟩ := hw
  have hidx := hash_func_le s P hP hlt (toUnsigned v)
  rw [_CheckAndSet_two_blocks fuel s P hP v] at hs
  cases h1 : probeLoop s 0 v m_maxLoop 0 (hash_func s (toUnsigned v)) with
  | some rs =>
    obtain ⟨r, x⟩ := rs
    rw [h1] at hs
    simp only [Option.some.injEq, Prod.mk.injEq] at hs
    obtain ⟨hr, hx⟩ := hs
    subst hr; subst hx
    obtain ⟨hhit, hext⟩ := probeLoop_hit_after_record s P hP hlt 0 v hv0 (by omega) _ _ _ x
      hidx h1
    rw [_CheckAndSet_two_blocks fuel x P (hext.1.trans hP) v, hash_func_congr s x hext.1, hhit]
    exact ⟨_, rfl⟩
  | none =>
    rw [h1] at hs
    simp only at hs
    cases h2 : probeLoop { s with m_secondHash := true } (P + 1) v m_maxLoop 0
        (hash_func s (toUnsigned v)) with
    | some rs =>
      obtain ⟨r, x⟩ := rs
      rw [h2] at hs
      simp only [Option.some.injEq, Prod.mk.injEq] at hs
      obtain ⟨hr, hx⟩ := hs
      subst hr; subst hx
      obtain ⟨hhit, hext⟩ := probeLoop_hit_after_record { s with m_secondHash := true } P hP
        hlt (P + 1) v hv0 (by show P + 1 + P < s.m_hashTable.length; omega) _ _ _ x hidx h2
      have hext1 : Extends s x := hext
      have hflag : ({ x with m_secondHash := true } : OptHashPosVector) = x := by
        rcases probeLoop_some { s with m_secondHash := true } P hP hlt (P + 1) v _ _ _ 1 x
          hidx h2 with ⟨hr, -⟩ | ⟨-, p, -, -, -, hx⟩
        · omega
        · rw [hx]
      rw [_CheckAndSet_two_blocks fuel x P (hext1.1.trans hP) v, hash_func_congr s x hext1.1,
        probeLoop_none_of_extends s x 0 v hext1 _ _ _ h1]
      simp only
      rw [hflag, hhit]
      exact ⟨_, rfl⟩
    | none =>
      rw [h2] at hs
      simp at hs

end OptHashPosVector
end SPTAG.COMMON
namespace SPTAG.COMMON
namespace OptHashPosVector

/-! ### `clear`, `Init` and the invariant -/

theorem length_memsetZero (tbl : List Int) (n : Nat) : (memsetZero tbl n).length = tbl.length := by
  unfold memsetZero
  simp only [List.length_append, List.length_replicate, List.length_drop]
  omega

theorem getD_memsetZero (tbl : List Int) (n i : Nat) :
    (memsetZero tbl n).getD i 0 = if i < n then 0 else tbl.getD i 0 := by
  unfold memsetZero
  simp only [List.getD_eq_getElem?_getD]
  by_cases h1 : i < min n tbl.length
  · rw [List.getElem?_append_left (by simpa using h1)]
    have : i < n := by omega
    simp [List.getElem?_replicate, h1, this]
  · rw [List.getElem?_append_right (by simp only [List.length_replicate]; omega)]
    simp only [List.length_replicate, List.getElem?_drop]
    by_cases h2 : i < n
    · have h3 : tbl.length ≤ i := by omega
      rw [if_pos h2, List.getElem?_eq_none (by omega)]
      rfl
    · rw [if_neg h2]
      by_cases h4 : n ≤ tbl.length
      · congr 2
        omega
      · rw [List.getElem?_eq_none (by omega), List.getElem?_eq_none (by omega)]

theorem clear_wellFormed (s : OptHashPosVector) (P : Nat) (hw : WellFormed s P) :
    WellFormed s.clear P ∧ s.clear.m_secondHash = false ∧
      ∀ i, s.clear.m_hashTable.getD i 0 = 0 := by
  obtain ⟨hP, hlt, hlen, hlazy⟩ := hw
  have h1 : (s.m_poolSize + 1).toNat = P + 1 := by rw [hP]; omega
  have h2 : (2 * (s.m_poolSize + 1)).toNat = 2 * (P + 1) := by rw [hP]; omega
  unfold OptHashPosVector.clear
  cases hf : s.m_secondHash with
  | false =>
    simp only [Bool.not_false, if_true]
    have hz : ∀ i, (memsetZero s.m_hashTable (s.m_poolSize + 1).toNat).getD i 0 = 0 := by
      intro i
      rw [getD_memsetZero, h1]
      split
      · rfl
      · exact hlazy hf i (by omega)
    exact ⟨⟨hP, hlt, by rw [length_memsetZero]; exact hlen, fun _ i _ => hz i⟩, trivial, hz⟩
  | true =>
    simp only [Bool.not_true, Bool.false_eq_true, if_false]
    have hz : ∀ i, (memsetZero s.m_hashTable (2 * (s.m_poolSize + 1)).toNat).getD i 0 = 0 := by
      intro i
      rw [getD_memsetZero, h2]
      split
      · rfl
      · rw [List.getD_eq_getElem?_getD, List.getElem?_eq_none (by omega)]
        rfl
    exact ⟨⟨hP, hlt, by rw [length_memsetZero]; exact hlen, fun _ i _ => hz i⟩, trivial, hz⟩

theorem findable_of_all_zero (s : OptHashPosVector) (hz : ∀ i, s.m_hashTable.getD i 0 = 0) :
    Findable s := by
  intro v hv hmem
  exfalso
  obtain ⟨i, hi, rfl⟩ := List.getElem_of_mem hmem
  apply hv
  rw [← List.getD_eq_getElem s.m_hashTable 0 hi]
  exact hz i

theorem clear_invariant (s : OptHashPosVector) (h : Invariant s) :
    Invariant s.clear ∧ ∀ i, s.clear.m_hashTable.getD i 0 = 0 := by
  obtain ⟨P, hw, -⟩ := h
  obtain ⟨hw1, -, hz⟩ := clear_wellFormed s P hw
  exact ⟨⟨P, hw1, findable_of_all_zero _ hz⟩, hz⟩

/-- A returning `Init` leaves a well-formed object whose slots are all empty. -/
theorem Init_returns_invariant (fuel : Nat) (mem : Nat → Int) (s0 s : OptHashPosVector)
    (size : Int) (h : Init fuel mem s0 size = Outcome.returns s) :
    Invariant s ∧ s.m_secondHash = false ∧ ∀ i, s.m_hashTable.getD i 0 = 0 := by
  unfold Init at h
  split at h
  · cases h
  · rename_i ex _
    simp only at h
    split at h
    · cases h
    · rename_i h30
      split at h
      · cases h
      · rename_i h31
        simp only [Outcome.returns.injEq] at h
        have hpos : 1 ≤ 2 ^ (ex + 1) := Nat.one_le_two_pow
        have hcast : ((2 ^ (ex + 1) - 1 : Nat) : Int) = 2 ^ (ex + 1) - 1 := by
          push_cast [hpos]; rfl
        have hlt : 2 ^ (ex + 1) - 1 < 2147483648 := by
          have h5 : ((2 ^ (ex + 1) : Nat) : Int) ≤ 2147483647 := by
            push_cast; unfold INT_MAX at h30; omega
          have h6 : 2 ^ (ex + 1) ≤ 2147483647 := by exact_mod_cast h5
          omega
        have hw : WellFormed
            { m_secondHash := true, m_poolSize := 2 ^ (ex + 1) - 1,
              m_hashTable := (List.range (((2 : Int) ^ (ex + 1) - 1 + 1) * 2).toNat).map mem }
            (2 ^ (ex + 1) - 1) := by
          refine ⟨hcast.symm, hlt, ?_, fun hf => by simp at hf⟩
          simp only [List.length_map, List.length_range]
          rw [← hcast]
          omega
        obtain ⟨hw1, hf1, hz⟩ := clear_wellFormed _ _ hw
        rw [← h]
        exact ⟨⟨_, hw1, findable_of_all_zero _ hz⟩, hf1, hz⟩

/-- The results of `_CheckAndSet` on the first block do not depend on the fuel, once there is
fuel for two activations. -/
theorem _CheckAndSet_fuel (fuel : Nat) (s : OptHashPosVector) (P : Nat)
    (hP : s.m_poolSize = (P : Int)) (v : Int) :
    _CheckAndSet (fuel + 2) s 0 v = _CheckAndSet 2 s 0 v := by
  rw [_CheckAndSet_two_blocks fuel s P hP v, _CheckAndSet_two_blocks 0 s P hP v]

/-- One `_CheckAndSet` keeps the invariant. -/
theorem _CheckAndSet_invariant (fuel : Nat) (s : OptHashPosVector) (h : Invariant s) (v : Int)
    (r : Int) (s1 : OptHashPosVector) (hs : _CheckAndSet (fuel + 2) s 0 v = some (r, s1)) :
    Invariant s1 ∧ Extends s s1 := by
  obtain ⟨P, hw, hfind⟩ := h
  obtain ⟨r2, s2, hs2, hext, hw1, hcases⟩ := _CheckAndSet_spec fuel s P hw v
  rw [hs] at hs2
  simp only [Option.some.injEq, Prod.mk.injEq] at hs2
  obtain ⟨hr, hs12⟩ := hs2
  subst hr; subst hs12
  refine ⟨⟨P, hw1, ?_⟩, hext⟩
  intro u hu hmem
  have hold : u ∈ s.m_hashTable → ∃ t, _CheckAndSet 2 s1 0 u = some (0, t) := by
    intro hm
    obtain ⟨t, ht⟩ := hfind u hu hm
    exact _CheckAndSet_hit_of_extends 0 s s1 P hw.1 hext u t ht
  rcases hcases with ⟨-, -, -, htbl⟩ | ⟨hr, p, -, -, htbl⟩ | ⟨-, htbl⟩
  · rw [htbl] at hmem; exact hold hmem
  · rw [htbl] at hmem
    rcases List.mem_or_eq_of_mem_set hmem with hm | he
    · exact hold hm
    · subst he; subst hr
      rw [_CheckAndSet_fuel fuel s P hw.1 u] at hs
      exact _CheckAndSet_hit_after_record 0 s P hw u hu s1 hs
  · rw [htbl] at hmem; exact hold hmem

end OptHashPosVector
end SPTAG.COMMON
namespace SPTAG.COMMON
namespace OptHashPosVector

/-! ### Sequences of public calls -/

theorem call_invariant (fuel : Nat) (s : OptHashPosVector) (h : Invariant s) (c : Call) :
    ∃ s1, s.call (fuel + 2) c = some s1 ∧ Invariant s1 := by
  cases c with
  | CheckAndSet idx =>
    obtain ⟨P, hw, hfind⟩ := h
    obtain ⟨r, s1, hs, -⟩ := _CheckAndSet_spec fuel s P hw (idx + 1)
    refine ⟨s1, ?_, (_CheckAndSet_invariant fuel s ⟨P, hw, hfind⟩ _ r s1 hs).1⟩
    simp [call, CheckAndSet, hs]
  | clear => exact ⟨s.clear, rfl, (clear_invariant s h).1⟩

theorem run_invariant (fuel : Nat) (calls : List Call) :
    ∀ s : OptHashPosVector, Invariant s →
    ∃ s1, run (fuel + 2) s calls = some s1 ∧ Invariant s1 := by
  induction calls with
  | nil => intro s h; exact ⟨s, rfl, h⟩
  | cons c cs ih =>
    intro s h
    obtain ⟨s1, hc, h1⟩ := call_invariant fuel s h c
    obtain ⟨s2, hr, h2⟩ := ih s1 h1
    exact ⟨s2, by rw [run, hc]; exact hr, h2⟩

theorem run_append (fuel : Nat) (a b : List Call) :
    ∀ s : OptHashPosVector, run fuel s (a ++ b) = (run fuel s a).bind fun m => run fuel m b := by
  induction a with
  | nil => intro s; rfl
  | cons c cs ih =>
    intro s
    rw [List.cons_append, run, run]
    cases s.call fuel c with
    | none => rfl
    | some s1 => exact ih s1

/-- Calls of `CheckAndSet` alone only extend the table. -/
theorem run_checkAndSet_extends (fuel : Nat) (ys : List Int) :
    ∀ s : OptHashPosVector, Invariant s →
    ∃ s1, run (fuel + 2) s (ys.map Call.CheckAndSet) = some s1 ∧ Extends s s1 ∧
      Invariant s1 := by
  induction ys with
  | nil => intro s h; exact ⟨s, rfl, Extends.refl s, h⟩
  | cons y ys ih =>
    intro s h
    obtain ⟨P, hw, hfind⟩ := h
    obtain ⟨r, s1, hs, -⟩ := _CheckAndSet_spec fuel s P hw (y + 1)
    obtain ⟨h1, hext⟩ := _CheckAndSet_invariant fuel s ⟨P, hw, hfind⟩ _ r s1 hs
    obtain ⟨s2, hr, hext2, h2⟩ := ih s1 h1
    refine ⟨s2, ?_, hext.trans hext2, h2⟩
    rw [List.map_cons, run]
    simp only [call, CheckAndSet, hs, Option.map_some']
    exact hr

theorem RecordedSince.snoc {fuel : Nat} {s1 : OptHashPosVector} {calls : List Call} {x : Int}
    (h : RecordedSince fuel s1 calls x) (y : Int) :
    RecordedSince fuel s1 (calls ++ [Call.CheckAndSet y]) x := by
  obtain ⟨pre, post, mid, mid1, hc, hpost, hrun, hrec⟩ := h
  refine ⟨pre, post ++ [Call.CheckAndSet y], mid, mid1, by rw [hc]; simp, ?_, hrun, hrec⟩
  simp [hpost]

/-- Every value in the table was recorded by a `CheckAndSet` call since the last `clear`. -/
theorem run_recorded (fuel : Nat) (s1 : OptHashPosVector) (h1 : Invariant s1)
    (hz : ∀ i, s1.m_hashTable.getD i 0 = 0) (calls : List Call) :
    ∀ s : OptHashPosVector, run (fuel + 2) s1 calls = some s →
    ∀ v : Int, v ≠ 0 → v ∈ s.m_hashTable → RecordedSince (fuel + 2) s1 calls (v - 1) := by
  have hzero : ∀ (t : OptHashPosVector), (∀ i, t.m_hashTable.getD i 0 = 0) →
      ∀ v : Int, v ≠ 0 → v ∈ t.m_hashTable → False := by
    intro t ht v hv hmem
    obtain ⟨i, hi, rfl⟩ := List.getElem_of_mem hmem
    apply hv
    rw [← List.getD_eq_getElem t.m_hashTable 0 hi]
    exact ht i
  induction calls using List.reverseRecOn with
  | nil =>
    intro s hs v hv hmem
    simp only [run, Option.some.injEq] at hs
    subst hs
    exact (hzero _ hz v hv hmem).elim
  | append_singleton cs c ih =>
    intro s hs v hv hmem
    rw [run_append] at hs
    obtain ⟨m, hm, hinv⟩ := run_invariant fuel cs s1 h1
    rw [hm] at hs
    simp only [Option.some_bind, run] at hs
    cases c with
    | clear =>
      simp only [call, Option.some.injEq] at hs
      subst hs
      exact (hzero _ (clear_invariant m hinv).2 v hv hmem).elim
    | CheckAndSet y =>
      obtain ⟨P, hw, hfind⟩ := hinv
      obtain ⟨r, m1, hr, -, -, hcases⟩ := _CheckAndSet_spec fuel m P hw (y + 1)
      simp only [call, CheckAndSet, hr, Option.map_some', Option.some.injEq] at hs
      subst hs
      have hold : v ∈ m.m_hashTable →
          RecordedSince (fuel + 2) s1 (cs ++ [Call.CheckAndSet y]) (v - 1) :=
        fun hmem1 => (ih m hm v hv hmem1).snoc y
      rcases hcases with ⟨-, -, -, htbl⟩ | ⟨hr1, p, -, -, htbl⟩ | ⟨-, htbl⟩
      · rw [htbl] at hmem; exact hold hmem
      · rw [htbl] at hmem
        rcases List.mem_or_eq_of_mem_set hmem with hmem1 | he
        · exact hold hmem1
        · subst he; subst hr1
          refine ⟨cs, [], m, m1, ?_, by simp, hm, ?_⟩
          · simp
          · simpa using hr
      · rw [htbl] at hmem; exact hold hmem

end OptHashPosVector
end SPTAG.COMMON
namespace SPTAG.COMMON
open OptHashPosVector

/-! ### The workspace keeps the invariant of its visited set -/

theorem WorkSpace.Initialize_returns_Init {H : Type} (ops : HeapOps H) (fuel : Nat)
    (mem : Nat → Int) (ws0 ws1 : WorkSpace H) (maxCheck dataSize : Int)
    (h : WorkSpace.Initialize ops fuel mem ws0 maxCheck dataSize = Outcome.returns ws1) :
    Init fuel mem ws0.nodeCheckStatus maxCheck = Outcome.returns ws1.nodeCheckStatus := by
  unfold WorkSpace.Initialize at h
  split at h
  · cases h
  · cases h
  · rename_i s hs
    rw [hs]
    split at h
    · cases h
    · split at h
      · cases h
      · cases h; rfl

theorem WorkSpace.call_keeps_invariant {H : Type} (ops : HeapOps H) (fuel : Nat) (ws : WorkSpace H)
    (h : Invariant ws.nodeCheckStatus) (c : WorkSpace.Call) :
    ∃ ws1, ws.call ops (fuel + 2) c = some ws1 ∧ Invariant ws1.nodeCheckStatus := by
  cases c with
  | CheckAndSet idx =>
    obtain ⟨s1, hc, h1⟩ := OptHashPosVector.call_invariant fuel ws.nodeCheckStatus h
      (OptHashPosVector.Call.CheckAndSet idx)
    simp only [OptHashPosVector.call, Option.map_eq_some'] at hc
    obtain ⟨⟨b, s2⟩, hb, rfl⟩ := hc
    exact ⟨{ ws with nodeCheckStatus := s2 }, by simp [WorkSpace.call, WorkSpace.CheckAndSet, hb],
      h1⟩
  | Reset maxCheck =>
    exact ⟨ws.Reset ops maxCheck, rfl, (clear_invariant _ h).1⟩

theorem WorkSpace.run_keeps_invariant {H : Type} (ops : HeapOps H) (fuel : Nat)
    (calls : List WorkSpace.Call) :
    ∀ ws : WorkSpace H, Invariant ws.nodeCheckStatus →
    ∃ ws1, WorkSpace.run ops (fuel + 2) ws calls = some ws1 ∧
      Invariant ws1.nodeCheckStatus := by
  induction calls with
  | nil => intro ws h; exact ⟨ws, rfl, h⟩
  | cons c cs ih =>
    intro ws h
    obtain ⟨ws1, hc, h1⟩ := WorkSpace.call_keeps_invariant ops fuel ws h c
    obtain ⟨ws2, hr, h2⟩ := ih ws1 h1
    exact ⟨ws2, by rw [WorkSpace.run, hc]; exact hr, h2⟩

/-- On a table whose primary slot for `v` is empty, `_CheckAndSet` records `v` there. -/
theorem OptHashPosVector._CheckAndSet_of_empty (fuel : Nat) (s : OptHashPosVector) (v : Int)
    (hz : s.m_hashTable.getD (hash_func s (toUnsigned v)) 0 = 0) :
    _CheckAndSet (fuel + 1) s 0 v
      = some (1, { s with m_hashTable := s.m_hashTable.set (hash_func s (toUnsigned v)) v }) := by
  have hp : probeLoop s 0 v m_maxLoop 0 (hash_func s (toUnsigned v))
      = some (1, { s with m_hashTable := s.m_hashTable.set (hash_func s (toUnsigned v)) v }) := by
    show probeLoop s 0 v (7 + 1) 0 (hash_func s (toUnsigned v)) = _
    rw [probeLoop]
    simp only [Nat.zero_add]
    rw [if_pos hz]
  rw [_CheckAndSet, hp]

end SPTAG.COMMON
namespace SPTAG.COMMON
namespace OptHashPosVector

/-! ### The slots a call touches -/

theorem probeLoopLog_fst (s : OptHashPosVector) (b : Nat) (v : Int) :
    ∀ (n : Nat) (loop : Int) (index : Nat),
    (probeLoopLog s b v n loop index).1 = probeLoop s b v n loop index := by
  intro n
  induction n with
  | zero => intro loop index; rfl
  | succ n ih =>
    intro loop index
    unfold probeLoopLog probeLoop
    split
    · rfl
    · split
      · rfl
      · exact ih _ _

theorem _CheckAndSetLog_fst (fuel : Nat) :
    ∀ (s : OptHashPosVector) (b : Nat) (v : Int),
    (_CheckAndSetLog fuel s b v).1 = _CheckAndSet fuel s b v := by
  induction fuel with
  | zero => intro s b v; rfl
  | succ fuel ih =>
    intro s b v
    unfold _CheckAndSetLog _CheckAndSet
    rw [← probeLoopLog_fst]
    cases h : probeLoopLog s b v m_maxLoop 0 (hash_func s (toUnsigned v)) with
    | mk r log =>
      cases r with
      | some r => rfl
      | none =>
        simp only
        split
        · exact ih _ _ _
        · rfl

theorem length_probeIndices (s : OptHashPosVector) :
    ∀ (n : Nat) (loop : Int) (index : Nat), (probeIndices s n loop index).length = n := by
  intro n
  induction n with
  | zero => intro loop index; rfl
  | succ n ih => intro loop index; simp [probeIndices, ih]

theorem probeIndices_le (s : OptHashPosVector) (P : Nat) (hP : s.m_poolSize = (P : Int))
    (hlt : P < 2147483648) :
    ∀ (n : Nat) (loop : Int) (index : Nat), index ≤ P →
    ∀ i ∈ probeIndices s n loop index, i ≤ P := by
  intro n
  induction n with
  | zero => intro loop index _ i hi; simp [probeIndices] at hi
  | succ n ih =>
    intro loop index hidx i hi
    simp only [probeIndices, List.mem_cons] at hi
    rcases hi with rfl | hi
    · exact hidx
    · exact ih _ _ (hash_func2_le s P hP hlt _ _) i hi

theorem probeIndices_congr (s t : OptHashPosVector) (h : t.m_poolSize = s.m_poolSize) :
    ∀ (n : Nat) (loop : Int) (index : Nat),
    probeIndices t n loop index = probeIndices s n loop index := by
  intro n
  induction n with
  | zero => intro loop index; rfl
  | succ n ih =>
    intro loop index
    simp only [probeIndices, hash_func2_congr s t h, ih]

/-- The slots the probe loop touches are an initial part of the probe sequence of the block;
when the loop runs to its end, they are the whole sequence. -/
theorem probeLoopLog_snd (s : OptHashPosVector) (b : Nat) (v : Int) :
    ∀ (n : Nat) (loop : Int) (index : Nat),
    (probeLoopLog s b v n loop index).2 <+: (probeIndices s n loop index).map (fun i => b + i) ∧
    ((probeLoopLog s b v n loop index).1 = none →
      (probeLoopLog s b v n loop index).2
        = (probeIndices s n loop index).map (fun i => b + i)) ∧
    ((probeLoopLog s b v n loop index).1 ≠ none →
      (probeLoopLog s b v n loop index).2 ≠ []) := by
  intro n
  induction n with
  | zero => intro loop index; simp [probeLoopLog, probeIndices]
  | succ n ih =>
    intro loop index
    unfold probeLoopLog probeIndices
    split
    · simp [List.prefix_cons_iff]
    · split
      · simp [List.prefix_cons_iff]
      · obtain ⟨h1, h2, -⟩ := ih (loop + 1) (hash_func2 s index loop)
        refine ⟨?_, ?_, by simp⟩
        · simpa [List.prefix_cons_iff] using h1
        · intro hn
          simp only [List.map_cons]
          rw [h2 hn]

/-- The probe loop runs to its end exactly when every slot of the probe sequence holds a value
other than 0 and other than the id looked for. -/
theorem probeLoop_eq_none_iff (s : OptHashPosVector) (b : Nat) (v : Int) :
    ∀ (n : Nat) (loop : Int) (index : Nat),
    probeLoop s b v n loop index = none ↔
      ∀ i ∈ probeIndices s n loop index,
        s.m_hashTable.getD (b + i) 0 ≠ 0 ∧ s.m_hashTable.getD (b + i) 0 ≠ v := by
  intro n
  induction n with
  | zero => intro loop index; simp [probeLoop, probeIndices]
  | succ n ih =>
    intro loop index
    unfold probeLoop probeIndices
    simp only [List.forall_mem_cons]
    by_cases h0 : s.m_hashTable.getD (b + index) 0 = 0
    · rw [if_pos h0]
      constructor
      · intro h; cases h
      · intro h; exact absurd h0 h.1.1
    · by_cases hv : s.m_hashTable.getD (b + index) 0 = v
      · rw [if_neg h0, if_pos hv]
        constructor
        · intro h; cases h
        · intro h; exact absurd hv h.1.2
      · rw [if_neg h0, if_neg hv, ih]
        exact ⟨fun h => ⟨⟨h0, hv⟩, h⟩, fun h => h.2⟩

/-- The slots touched by `_CheckAndSet` on a well-formed object: those of the probe loop on
the first block, followed, when that loop runs to its end, by those of the probe loop on the
second block. -/
theorem _CheckAndSetLog_two_blocks (fuel : Nat) (s : OptHashPosVector) (P : Nat)
    (hP : s.m_poolSize = (P : Int)) (v : Int) :
    (_CheckAndSetLog (fuel + 2) s 0 v).2 =
      match probeLoop s 0 v m_maxLoop 0 (hash_func s (toUnsigned v)) with
      | some _ => (probeLoopLog s 0 v m_maxLoop 0 (hash_func s (toUnsigned v))).2
      | none =>
        (probeLoopLog s 0 v m_maxLoop 0 (hash_func s (toUnsigned v))).2 ++
          (probeLoopLog { s with m_secondHash := true } (P + 1) v m_maxLoop 0
            (hash_func s (toUnsigned v))).2 := by
  have hb : (s.m_poolSize + 1).toNat = P + 1 := by rw [hP]; omega
  have hh : hash_func { s with m_secondHash := true } (toUnsigned v)
      = hash_func s (toUnsigned v) := rfl
  rw [← probeLoopLog_fst]
  unfold _CheckAndSetLog
  cases h1 : probeLoopLog s 0 v m_maxLoop 0 (hash_func s (toUnsigned v)) with
  | mk r log =>
    cases r with
    | some r => rfl
    | none =>
      simp only [if_true, hb]
      unfold _CheckAndSetLog
      rw [hh]
      cases h2 : probeLoopLog { s with m_secondHash := true } (P + 1) v m_maxLoop 0
          (hash_func s (toUnsigned v)) with
      | mk r2 log2 =>
        cases r2 with
        | some r2 => rfl
        | none => simp

end OptHashPosVector
end SPTAG.COMMON
namespace SPTAG.COMMON
namespace OptHashPosVector

/-! ### Facts about reachable states -/

theorem run_poolSize (fuel : Nat) (calls : List Call) :
    ∀ s : OptHashPosVector, Invariant s → ∀ t, run (fuel + 2) s calls = some t →
    t.m_poolSize = s.m_poolSize := by
  induction calls with
  | nil =>
    intro s _ t ht
    simp only [run, Option.some.injEq] at ht
    rw [← ht]
  | cons c cs ih =>
    intro s h t ht
    obtain ⟨s1, hc, h1⟩ := call_invariant fuel s h c
    rw [run, hc] at ht
    rw [ih s1 h1 t ht]
    cases c with
    | clear =>
      simp only [call, Option.some.injEq] at hc
      rw [← hc, clear_poolSize]
    | CheckAndSet idx =>
      obtain ⟨P, hw, hfind⟩ := h
      obtain ⟨r, s2, hs, hext, -⟩ := _CheckAndSet_spec fuel s P hw (idx + 1)
      simp only [call, CheckAndSet, hs, Option.map_some', Option.some.injEq] at hc
      rw [← hc]
      exact hext.1

/-- A returning `Init` leaves a mask of the form `2^k - 1` with `1 <= k <= 29` and a table of
`2 * (m_poolSize + 1)` slots. -/
theorem Init_returns_mask (fuel : Nat) (mem : Nat → Int) (s0 s : OptHashPosVector)
    (size : Int) (h : Init fuel mem s0 size = Outcome.returns s) :
    ∃ k : Nat, 1 ≤ k ∧ k ≤ 29 ∧ s.m_poolSize = ((2 ^ k - 1 : Nat) : Int) ∧
      s.m_hashTable.length = 2 * (2 ^ k - 1 + 1) := by
  obtain ⟨⟨P, hw, -⟩, -, -⟩ := Init_returns_invariant fuel mem s0 s size h
  unfold Init at h
  split at h
  · cases h
  · rename_i ex _
    simp only at h
    split at h
    · cases h
    · split at h
      · cases h
      · rename_i h31
        simp only [Outcome.returns.injEq] at h
        have hp : s.m_poolSize = 2 ^ (ex + 1) - 1 := by rw [← h, clear_poolSize]
        have hpos : 1 ≤ 2 ^ (ex + 1) := Nat.one_le_two_pow
        have hcast : ((2 ^ (ex + 1) - 1 : Nat) : Int) = 2 ^ (ex + 1) - 1 := by
          push_cast [hpos]; rfl
        have hPeq : P = 2 ^ (ex + 1) - 1 := by
          have := hw.1
          rw [hp, ← hcast] at this
          exact_mod_cast this.symm
        have hex : ex + 1 ≤ 29 := by
          by_contra hcon
          apply h31
          have h2 : (2 : Int) ^ 30 ≤ 2 ^ (ex + 1) := two_pow_le_int 30 (ex + 1) (by omega)
          have h3 : ((2 : Int) ^ (ex + 1) - 1 + 1) * 2 = 2 * 2 ^ (ex + 1) := by ring
          show INT_MAX < ((2 : Int) ^ (ex + 1) - 1 + 1) * 2
          rw [h3]
          unfold INT_MAX
          norm_num at h2 ⊢
          linarith
        refine ⟨ex + 1, by omega, hex, by rw [hp, hcast], ?_⟩
        rw [hw.2.2.1, hPeq]

/-- What holds in every state reached from a returning `Init` by public calls. -/
theorem reachable_facts (fuelI fuel : Nat) (mem : Nat → Int) (s0 s1 s : OptHashPosVector)
    (size : Int) (calls : List Call) (hI : Init fuelI mem s0 size = Outcome.returns s1)
    (hrun : run (fuel + 2) s1 calls = some s) :
    Findable s ∧ ∃ k : Nat, 1 ≤ k ∧ k ≤ 29 ∧ WellFormed s (2 ^ k - 1) := by
  obtain ⟨hinv1, -, -⟩ := Init_returns_invariant fuelI mem s0 s1 size hI
  obtain ⟨m, hm, hinv⟩ := run_invariant fuel calls s1 hinv1
  rw [hrun] at hm
  cases hm
  have hps := run_poolSize fuel calls s1 hinv1 s hrun
  obtain ⟨k, hk1, hk2, hmask, -⟩ := Init_returns_mask fuelI mem s0 s1 size hI
  obtain ⟨P, hw, hfind⟩ := hinv
  have hPk : P = 2 ^ k - 1 := by
    have := hw.1
    rw [hps, hmask] at this
    exact_mod_cast this.symm
  subst hPk
  exact ⟨hfind, k, hk1, hk2, hw⟩

/-- The overflow result of `_CheckAndSet`: both probe loops ran to their end, and only
`m_secondHash` was set. -/
theorem _CheckAndSet_overflow_iff (fuel : Nat) (s : OptHashPosVector) (P : Nat)
    (hw : WellFormed s P) (v : Int) (s2 : OptHashPosVector) :
    _CheckAndSet (fuel + 2) s 0 v = some (-1, s2) ↔
      probeLoop s 0 v m_maxLoop 0 (hash_func s (toUnsigned v)) = none ∧
      probeLoop { s with m_secondHash := true } (P + 1) v m_maxLoop 0
        (hash_func s (toUnsigned v)) = none ∧
      s2 = { s with m_secondHash := true } := by
  obtain ⟨hP, hlt, -, -⟩ := hw
  have hidx := hash_func_le s P hP hlt (toUnsigned v)
  rw [_CheckAndSet_two_blocks fuel s P hP v]
  cases h1 : probeLoop s 0 v m_maxLoop 0 (hash_func s (toUnsigned v)) with
  | some rs =>
    obtain ⟨r, x⟩ := rs
    simp only [Option.some.injEq, Prod.mk.injEq]
    constructor
    · rintro ⟨hr, -⟩
      rcases probeLoop_some s P hP hlt 0 v _ _ _ r x hidx h1 with ⟨h, -⟩ | ⟨h, -⟩ <;> omega
    · rintro ⟨h, -⟩
      cases h
  | none =>
    simp only [true_and]
    cases h2 : probeLoop { s with m_secondHash := true } (P + 1) v m_maxLoop 0
        (hash_func s (toUnsigned v)) with
    | some rs =>
      obtain ⟨r, x⟩ := rs
      simp only [Option.some.injEq, Prod.mk.injEq]
      constructor
      · rintro ⟨hr, -⟩
        rcases probeLoop_some { s with m_secondHash := true } P hP hlt (P + 1) v _ _ _ r x
          hidx h2 with ⟨h, -⟩ | ⟨h, -⟩ <;> omega
      · rintro ⟨h, -⟩
        cases h
    | none =>
      simp only [Option.some.injEq, Prod.mk.injEq, true_and]
      exact eq_comm

/-- An overflow stays an overflow when the table is extended. -/
theorem _CheckAndSet_overflow_of_extends (fuel : Nat) (s t : OptHashPosVector) (P : Nat)
    (hws : WellFormed s P) (hwt : WellFormed t P) (hext : Extends s t) (v : Int)
    (s2 : OptHashPosVector) (hs : _CheckAndSet (fuel + 2) s 0 v = some (-1, s2)) :
    _CheckAndSet (fuel + 2) t 0 v = some (-1, { t with m_secondHash := true }) := by
  obtain ⟨h1, h2, -⟩ := (_CheckAndSet_overflow_iff fuel s P hws v s2).mp hs
  rw [_CheckAndSet_overflow_iff fuel t P hwt v, hash_func_congr s t hext.1]
  exact ⟨probeLoop_none_of_extends s t 0 v hext _ _ _ h1,
    probeLoop_none_of_extends { s with m_secondHash := true } { t with m_secondHash := true }
      (P + 1) v (hext.anyFlag true true) _ _ _ h2, rfl⟩

end OptHashPosVector
end SPTAG.COMMON
namespace SPTAG.COMMON
namespace OptHashPosVector

/-! ### The slots touched in a well-formed object -/

theorem _CheckAndSetLog_fuel (fuel : Nat) (s : OptHashPosVector) (P : Nat)
    (hP : s.m_poolSize = (P : Int)) (v : Int) :
    _CheckAndSetLog (fuel + 2) s 0 v = _CheckAndSetLog 2 s 0 v := by
  apply Prod.ext
  · rw [_CheckAndSetLog_fst, _CheckAndSetLog_fst, _CheckAndSet_fuel fuel s P hP v]
  · rw [_CheckAndSetLog_two_blocks fuel s P hP v, _CheckAndSetLog_two_blocks 0 s P hP v]

/-- On a well-formed object the slots touched by `_CheckAndSet` split into a non-empty initial
part of the probe sequence in block one and an initial part of the same sequence, shifted by
`P + 1`, in block two; block two is touched exactly when every probed slot of block one holds
a value other than 0 and other than the id. -/
theorem _CheckAndSetLog_spec (fuel : Nat) (s : OptHashPosVector) (P : Nat)
    (hw : WellFormed s P) (v : Int) :
    ∃ log1 log2 : List Nat, (_CheckAndSetLog (fuel + 2) s 0 v).2 = log1 ++ log2 ∧
      log1 <+: probeIndices s m_maxLoop 0 (hash_func s (toUnsigned v)) ∧ log1 ≠ [] ∧
      log2 <+: (probeIndices s m_maxLoop 0 (hash_func s (toUnsigned v))).map
        (fun i => P + 1 + i) ∧
      (log2 ≠ [] ↔ ∀ i ∈ probeIndices s m_maxLoop 0 (hash_func s (toUnsigned v)),
        s.m_hashTable.getD i 0 ≠ 0 ∧ s.m_hashTable.getD i 0 ≠ v) ∧
      (log2 ≠ [] ↔ probeLoop s 0 v m_maxLoop 0 (hash_func s (toUnsigned v)) = none) := by
  have hl1 := probeLoopLog_snd s 0 v m_maxLoop 0 (hash_func s (toUnsigned v))
  have hl2 := probeLoopLog_snd { s with m_secondHash := true } (P + 1) v m_maxLoop 0
    (hash_func s (toUnsigned v))
  rw [probeLoopLog_fst] at hl1 hl2
  have hmap : (probeIndices s m_maxLoop 0 (hash_func s (toUnsigned v))).map (fun i => 0 + i)
      = probeIndices s m_maxLoop 0 (hash_func s (toUnsigned v)) := by simp
  rw [hmap] at hl1
  have hiff := probeLoop_eq_none_iff s 0 v m_maxLoop 0 (hash_func s (toUnsigned v))
  simp only [Nat.zero_add] at hiff
  have hne1 : (probeLoopLog s 0 v m_maxLoop 0 (hash_func s (toUnsigned v))).2 ≠ [] := by
    cases h1 : probeLoop s 0 v m_maxLoop 0 (hash_func s (toUnsigned v)) with
    | some r => exact hl1.2.2 (by rw [h1]; simp)
    | none => rw [hl1.2.1 h1]; simp [probeIndices, m_maxLoop]
  rw [_CheckAndSetLog_two_blocks fuel s P hw.1 v]
  cases h1 : probeLoop s 0 v m_maxLoop 0 (hash_func s (toUnsigned v)) with
  | some r =>
    refine ⟨_, [], (List.append_nil _).symm, hl1.1, hne1, List.nil_prefix, ?_, by simp⟩
    rw [← hiff, h1]; simp
  | none =>
    have hne2 : (probeLoopLog { s with m_secondHash := true } (P + 1) v m_maxLoop 0
        (hash_func s (toUnsigned v))).2 ≠ [] := by
      cases h2 : probeLoop { s with m_secondHash := true } (P + 1) v m_maxLoop 0
          (hash_func s (toUnsigned v)) with
      | some r => exact hl2.2.2 (by rw [h2]; simp)
      | none => rw [hl2.2.1 h2]; simp [probeIndices, m_maxLoop]
    refine ⟨_, _, rfl, hl1.1, hne1, hl2.1, ?_, by simp [hne2]⟩
    rw [← hiff, h1]; simp [hne2]

end OptHashPosVector
end SPTAG.COMMON
namespace SPTAG.COMMON
namespace OptHashPosVector

/-! ### Hashing with a mask `2^k - 1`, and all-zero tables -/

theorem eq_replicate_of_all_zero (l : List Int) (hz : ∀ i, l.getD i 0 = 0) :
    l = List.replicate l.length 0 := by
  rw [List.eq_replicate_iff]
  refine ⟨rfl, fun b hb => ?_⟩
  obtain ⟨i, hi, rfl⟩ := List.getElem_of_mem hb
  rw [← List.getD_eq_getElem l 0 hi]
  exact hz i

/-- The bit-level `_rotl` by 2 is the arithmetic rotation of the 32-bit value. -/
theorem _rotl_two_eq_rotateLeft32 (v : Nat) (hv : v < 4294967296) :
    _rotl v 2 = rotateLeft32 v 2 := by
  unfold _rotl rotateLeft32
  have hq : v >>> (32 - 2) < 2 ^ 2 := by
    rw [Nat.shiftRight_eq_div_pow]
    norm_num
    omega
  have hor : v <<< 2 ||| v >>> (32 - 2) = 2 ^ 2 * v + v >>> (32 - 2) := by
    rw [Nat.shiftLeft_eq, Nat.mul_comm v (2 ^ 2)]
    exact (Nat.mul_add_lt_is_or hq v).symm
  rw [hor, Nat.shiftRight_eq_div_pow, Nat.mod_eq_of_lt hv]
  norm_num
  omega

theorem toUnsigned_succ (n : Int) (h0 : 0 ≤ n) (h1 : n < 2 ^ 31 - 1) :
    toUnsigned (n + 1) = (n + 1).toNat := by
  unfold toUnsigned
  rw [Int.emod_eq_of_lt (by omega) (by omega)]

/-- With a mask `2^k - 1`, `hash_func2` adds the loop counter modulo `2^k`. -/
theorem hash_func2_mask (s : OptHashPosVector) (k : Nat)
    (hP : s.m_poolSize = ((2 ^ k - 1 : Nat) : Int)) (hk : k ≤ 29) (a l : Nat) (loop : Int)
    (hloop : loop = (l : Int)) (hl : l < 2147483648) :
    hash_func2 s (a &&& (2 ^ k - 1)) loop = (a + l) &&& (2 ^ k - 1) := by
  have hlt : 2 ^ k - 1 < 2147483648 := by
    have : 2 ^ k ≤ 2 ^ 29 := Nat.pow_le_pow_right (by norm_num) hk
    omega
  have hdvd : 2 ^ k ∣ 4294967296 := by
    have : (4294967296 : Nat) = 2 ^ 32 := by norm_num
    rw [this]
    exact pow_dvd_pow 2 (by omega)
  unfold hash_func2
  rw [hP, toUnsigned_natCast _ hlt, hloop, toUnsigned_natCast l hl]
  simp only [Nat.and_pow_two_sub_one_eq_mod]
  rw [Nat.mod_mod_of_dvd _ hdvd, Nat.mod_add_mod]

/-- With a mask `2^k - 1`, the 8 probes of a block examine the primary slot `h` twice and then
the slots `h + 1, h + 3, h + 6, h + 10, h + 15, h + 21`, each masked. -/
theorem probeIndices_eight (s : OptHashPosVector) (k : Nat)
    (hP : s.m_poolSize = ((2 ^ k - 1 : Nat) : Int)) (hk : k ≤ 29) (h : Nat)
    (hh : h ≤ 2 ^ k - 1) :
    probeIndices s m_maxLoop 0 h =
      [h, h, (h + 1) &&& (2 ^ k - 1), (h + 3) &&& (2 ^ k - 1), (h + 6) &&& (2 ^ k - 1),
        (h + 10) &&& (2 ^ k - 1), (h + 15) &&& (2 ^ k - 1), (h + 21) &&& (2 ^ k - 1)] := by
  have hpos : 1 ≤ 2 ^ k := Nat.one_le_two_pow
  have hself : h &&& (2 ^ k - 1) = h := by
    rw [Nat.and_pow_two_sub_one_eq_mod]
    exact Nat.mod_eq_of_lt (by omega)
  have e0 : hash_func2 s h 0 = h := by
    have := hash_func2_mask s k hP hk h 0 0 (by norm_num) (by norm_num)
    rwa [Nat.add_zero, hself] at this
  have e1 : hash_func2 s h (0 + 1) = (h + 1) &&& (2 ^ k - 1) := by
    have := hash_func2_mask s k hP hk h 1 (0 + 1) (by norm_num) (by norm_num)
    rwa [hself] at this
  have e2 : hash_func2 s ((h + 1) &&& (2 ^ k - 1)) (0 + 1 + 1) = (h + 3) &&& (2 ^ k - 1) :=
    hash_func2_mask s k hP hk (h + 1) 2 (0 + 1 + 1) (by norm_num) (by norm_num)
  have e3 : hash_func2 s ((h + 3) &&& (2 ^ k - 1)) (0 + 1 + 1 + 1)
      = (h + 6) &&& (2 ^ k - 1) :=
    hash_func2_mask s k hP hk (h + 3) 3 (0 + 1 + 1 + 1) (by norm_num) (by norm_num)
  have e4 : hash_func2 s ((h + 6) &&& (2 ^ k - 1)) (0 + 1 + 1 + 1 + 1)
      = (h + 10) &&& (2 ^ k - 1) :=
    hash_func2_mask s k hP hk (h + 6) 4 (0 + 1 + 1 + 1 + 1) (by norm_num) (by norm_num)
  have e5 : hash_func2 s ((h + 10) &&& (2 ^ k - 1)) (0 + 1 + 1 + 1 + 1 + 1)
      = (h + 15) &&& (2 ^ k - 1) :=
    hash_func2_mask s k hP hk (h + 10) 5 (0 + 1 + 1 + 1 + 1 + 1) (by norm_num) (by norm_num)
  have e6 : hash_func2 s ((h + 15) &&& (2 ^ k - 1)) (0 + 1 + 1 + 1 + 1 + 1 + 1)
      = (h + 21) &&& (2 ^ k - 1) :=
    hash_func2_mask s k hP hk (h + 15) 6 (0 + 1 + 1 + 1 + 1 + 1 + 1) (by norm_num)
      (by norm_num)
  show probeIndices s 8 0 h = _
  simp only [probeIndices]
  rw [e0, e1, e2, e3, e4, e5, e6]

end OptHashPosVector
end SPTAG.COMMON
namespace SPTAG.COMMON

/-! ### Comparisons of `float` values -/

theorem FloatVal.not_nan_of_le (a b : FloatVal) (h : a.le b = true) :
    a ≠ FloatVal.nan ∧ b ≠ FloatVal.nan := by
  cases a <;> cases b <;> simp [FloatVal.le] at h ⊢

namespace Heap

/-! ### The candidate heap of the spec -/

end Heap
end SPTAG.COMMON
namespace SPTAG.COMMON
open OptHashPosVector

/-! ### The visited set: C1 to C5 -/

/-- C1: in a state reached from a returning `Init` by `CheckAndSet` and `clear` calls, if
`CheckAndSet(x)` with `0 <= x` records `x` (internal result 1), then after any further
`CheckAndSet` calls, with any ids and no `clear`, `CheckAndSet(x)` finds `x` (internal
result 0); so `x` is recorded at most once between two `clear`s. -/
theorem C1_single_insert_idempotence (fuelI fuel : Nat) (mem : Nat → Int)
    (s0 s1 s s2 : OptHashPosVector) (size : Int) (calls : List OptHashPosVector.Call) (x : Int)
    (hI : Init fuelI mem s0 size = Outcome.returns s1) (hf : 2 ≤ fuel)
    (hrun : OptHashPosVector.run fuel s1 calls = some s) (hx : 0 ≤ x)
    (hfirst : _CheckAndSet fuel s 0 (x + 1) = some (1, s2)) (ys : List Int) :
    ∃ s3, OptHashPosVector.run fuel s2 (ys.map OptHashPosVector.Call.CheckAndSet) = some s3 ∧
      ∃ t, _CheckAndSet fuel s3 0 (x + 1) = some (0, t) := by
  obtain ⟨f, rfl⟩ := Nat.exists_eq_add_of_le hf
  rw [Nat.add_comm] at hrun hfirst ⊢
  obtain ⟨m, hm, hinv⟩ := OptHashPosVector.run_invariant f calls s1
    (Init_returns_invariant fuelI mem s0 s1 size hI).1
  rw [hrun] at hm
  cases hm
  obtain ⟨hinv2, -⟩ := _CheckAndSet_invariant f s hinv (x + 1) 1 s2 hfirst
  obtain ⟨P, hw, -⟩ := hinv
  obtain ⟨t2, ht2⟩ := _CheckAndSet_hit_after_record f s P hw (x + 1) (by omega) s2 hfirst
  obtain ⟨s3, hr3, hext, -⟩ := run_checkAndSet_extends f ys s2 hinv2
  obtain ⟨P2, hw2, -⟩ := hinv2
  exact ⟨s3, hr3, _CheckAndSet_hit_of_extends f s2 s3 P2 hw2.1 hext (x + 1) t2 ht2⟩

/-- C1 on the visited set after `Init(0)`: id 0 is recorded by the first `CheckAndSet(0)` and
found again after `CheckAndSet` of the ids 1, 2, 0, 3, 4. -/
theorem C1_single_insert_idempotence_witness :
    ∃ s3, OptHashPosVector.run 2
        { m_secondHash := false, m_poolSize := 1, m_hashTable := [1, 0, 0, 0] }
        ([1, 2, 0, 3, 4].map OptHashPosVector.Call.CheckAndSet) = some s3 ∧
      ∃ t, _CheckAndSet 2 s3 0 (0 + 1) = some (0, t) :=
  C1_single_insert_idempotence 1 2 sampleMem sampleVec sampleInit0 sampleInit0
    { m_secondHash := false, m_poolSize := 1, m_hashTable := [1, 0, 0, 0] } 0 [] 0
    (by decide) (by decide) (by decide) (by decide) (by decide) [1, 2, 0, 3, 4]

/-- C2 fails as stated: on the visited set right after `Init(0)`, `CheckAndSet(0)` writes
`0 + 1` into the empty slot 0 and returns false; the next `CheckAndSet(0)` finds the id
recorded and returns true. -/
theorem C2_counterexample :
    Init 1 sampleMem sampleVec 0 = Outcome.returns sampleInit0 ∧
    sampleInit0.CheckAndSet 2 0
      = some (false, { m_secondHash := false, m_poolSize := 1, m_hashTable := [1, 0, 0, 0] }) ∧
    OptHashPosVector.CheckAndSet 2
        { m_secondHash := false, m_poolSize := 1, m_hashTable := [1, 0, 0, 0] } 0
      = some (true, { m_secondHash := false, m_poolSize := 1, m_hashTable := [1, 0, 0, 0] }) ∧
    sampleInitWorkSpace.CheckAndSet 2 0
      = some (false, { sampleInitWorkSpace with nodeCheckStatus :=
          { m_secondHash := false, m_poolSize := 1, m_hashTable := [1, 0, 0, 0] } }) := by
  decide

/-- C2, amended: in a reachable state `CheckAndSet(x)` with `0 <= x` returns true exactly when
`x + 1` is already stored in a slot (the id was recorded), and then the table is unchanged; it
returns false when the call writes `x + 1` into an empty slot (first-time insertion).
`WorkSpace::CheckAndSet` returns the same value. -/
theorem C2_CheckAndSet_polarity (fuelI fuel : Nat) (mem : Nat → Int)
    (s0 s1 s : OptHashPosVector) (size : Int) (calls : List OptHashPosVector.Call) (x : Int)
    (hI : Init fuelI mem s0 size = Outcome.returns s1) (hf : 2 ≤ fuel)
    (hrun : OptHashPosVector.run fuel s1 calls = some s) (hx : 0 ≤ x) :
    ∃ b s2, s.CheckAndSet fuel x = some (b, s2) ∧
      (b = true ↔ x + 1 ∈ s.m_hashTable) ∧
      (b = true → s2.m_hashTable = s.m_hashTable) ∧
      ((∃ p, p < s.m_hashTable.length ∧ s.m_hashTable.getD p 0 = 0 ∧
          s2.m_hashTable = s.m_hashTable.set p (x + 1)) → b = false) ∧
      ∀ (H : Type) (ws : WorkSpace H), ws.nodeCheckStatus = s →
        ws.CheckAndSet fuel x = some (b, { ws with nodeCheckStatus := s2 }) := by
  obtain ⟨f, rfl⟩ := Nat.exists_eq_add_of_le hf
  rw [Nat.add_comm] at hrun ⊢
  obtain ⟨m, hm, hinv⟩ := OptHashPosVector.run_invariant f calls s1
    (Init_returns_invariant fuelI mem s0 s1 size hI).1
  rw [hrun] at hm
  cases hm
  obtain ⟨P, hw, hfind⟩ := hinv
  obtain ⟨r, s2, hs, -, -, hcases⟩ := _CheckAndSet_spec f s P hw (x + 1)
  have hv0 : x + 1 ≠ 0 := by omega
  have hpub : s.CheckAndSet (f + 2) x = some (r == 0, s2) := by
    simp [OptHashPosVector.CheckAndSet, hs]
  have hiff : (r == 0) = true ↔ x + 1 ∈ s.m_hashTable := by
    constructor
    · intro hr
      have hr0 : r = 0 := by simpa using hr
      rcases hcases with ⟨-, -, hmem, -⟩ | ⟨hr1, -⟩ | ⟨hr1, -⟩
      · exact hmem
      · omega
      · omega
    · intro hmem
      obtain ⟨t, ht⟩ := hfind (x + 1) hv0 hmem
      rw [← _CheckAndSet_fuel f s P hw.1, hs] at ht
      simp only [Option.some.injEq, Prod.mk.injEq] at ht
      simp [ht.1]
  have htbl : (r == 0) = true → s2.m_hashTable = s.m_hashTable := by
    intro hr
    have hr0 : r = 0 := by simpa using hr
    rcases hcases with ⟨-, -, -, h⟩ | ⟨hr1, -⟩ | ⟨hr1, -⟩
    · exact h
    · omega
    · omega
  refine ⟨r == 0, s2, hpub, hiff, htbl, ?_, ?_⟩
  · rintro ⟨p, hp, hp0, hset⟩
    by_contra hb
    have hb1 : (r == 0) = true := by simpa using hb
    have h1 : s2.m_hashTable.getD p 0 = x + 1 := by rw [hset]; exact getD_set_self _ _ _ hp
    rw [htbl hb1, hp0] at h1
    omega
  · intro H ws hws
    subst hws
    simp [WorkSpace.CheckAndSet, hpub]

/-- C2, amended, on the visited set after `Init(0)` and `CheckAndSet(0)`: `CheckAndSet(0)`
returns true and `CheckAndSet(1)` returns false. -/
theorem C2_CheckAndSet_polarity_witness :
    (∃ b s2, OptHashPosVector.CheckAndSet 2
        { m_secondHash := false, m_poolSize := 1, m_hashTable := [1, 0, 0, 0] } 0
        = some (b, s2) ∧
      (b = true ↔ (0 : Int) + 1 ∈ [(1 : Int), 0, 0, 0])) ∧
    OptHashPosVector.CheckAndSet 2
        { m_secondHash := false, m_poolSize := 1, m_hashTable := [1, 0, 0, 0] } 1
      = some (false, { m_secondHash := false, m_poolSize := 1, m_hashTable := [1, 2, 0, 0] }) := by
  obtain ⟨b, s2, h1, h2, -⟩ := C2_CheckAndSet_polarity 1 2 sampleMem sampleVec sampleInit0
    { m_secondHash := false, m_poolSize := 1, m_hashTable := [1, 0, 0, 0] } 0
    [OptHashPosVector.Call.CheckAndSet 0] 0 (by decide) (by decide) (by decide) (by decide)
  exact ⟨⟨b, s2, h1, h2⟩, by decide⟩

end SPTAG.COMMON
namespace SPTAG.COMMON
open OptHashPosVector

/-- C3: in a state reached from a returning `Init` by `CheckAndSet` and `clear` calls, if
`CheckAndSet(x)` reports `x` already present (internal result 0), then an earlier
`CheckAndSet(x)` of the sequence recorded `x` (internal result 1) and no `clear` was called
after it; and every non-empty slot holds `id + 1` for such an id. -/
theorem C3_no_false_already_visited (fuelI fuel : Nat) (mem : Nat → Int)
    (s0 s1 s : OptHashPosVector) (size : Int) (calls : List OptHashPosVector.Call)
    (hI : Init fuelI mem s0 size = Outcome.returns s1) (hf : 2 ≤ fuel)
    (hrun : OptHashPosVector.run fuel s1 calls = some s) :
    (∀ (x : Int) (t : OptHashPosVector), _CheckAndSet fuel s 0 (x + 1) = some (0, t) →
      RecordedSince fuel s1 calls x) ∧
    (∀ i, s.m_hashTable.getD i 0 ≠ 0 →
      RecordedSince fuel s1 calls (s.m_hashTable.getD i 0 - 1)) := by
  obtain ⟨f, rfl⟩ := Nat.exists_eq_add_of_le hf
  rw [Nat.add_comm] at hrun ⊢
  obtain ⟨hinv1, -, hz⟩ := Init_returns_invariant fuelI mem s0 s1 size hI
  obtain ⟨m, hm, hinv⟩ := OptHashPosVector.run_invariant f calls s1 hinv1
  rw [hrun] at hm
  cases hm
  have hrec := run_recorded f s1 hinv1 hz calls s hrun
  constructor
  · intro x t ht
    obtain ⟨P, hw, -⟩ := hinv
    obtain ⟨r, s2, hs, -, -, hcases⟩ := _CheckAndSet_spec f s P hw (x + 1)
    rw [ht] at hs
    simp only [Option.some.injEq, Prod.mk.injEq] at hs
    obtain ⟨hr, -⟩ := hs
    rcases hcases with ⟨-, hv0, hmem, -⟩ | ⟨hr1, -⟩ | ⟨hr1, -⟩
    · have := hrec (x + 1) hv0 hmem
      simpa using this
    · omega
    · omega
  · intro i hi
    exact hrec _ hi (mem_of_getD_ne_zero _ _ hi)

/-- C3 on the visited set after `Init(0)`, `CheckAndSet(0)`, `clear`, `CheckAndSet(1)`,
`CheckAndSet(2)`: id 1 is reported present, and it was recorded after the `clear`. -/
theorem C3_no_false_already_visited_witness :
    RecordedSince 2 sampleInit0
      [OptHashPosVector.Call.CheckAndSet 0, OptHashPosVector.Call.clear,
        OptHashPosVector.Call.CheckAndSet 1, OptHashPosVector.Call.CheckAndSet 2] 1 :=
  (C3_no_false_already_visited 1 2 sampleMem sampleVec sampleInit0
    { m_secondHash := false, m_poolSize := 1, m_hashTable := [3, 2, 0, 0] } 0
    [OptHashPosVector.Call.CheckAndSet 0, OptHashPosVector.Call.clear,
      OptHashPosVector.Call.CheckAndSet 1, OptHashPosVector.Call.CheckAndSet 2]
    (by decide) (by decide) (by decide)).1 1
    { m_secondHash := false, m_poolSize := 1, m_hashTable := [3, 2, 0, 0] } (by decide)

/-- C4: in a workspace reached from a returning `Initialize` by `CheckAndSet` and `Reset`
calls, after `Reset(maxCheck)` every slot of the visited set is empty and the second block is
inactive, so `CheckAndSet(x)` writes `x + 1` into the empty primary slot of block one (internal
result 1), whether or not `x` was recorded before the `Reset`. -/
theorem C4_Reset_clears_visited {H : Type} (ops : HeapOps H) (fuelI fuel : Nat)
    (mem : Nat → Int) (ws0 ws1 ws : WorkSpace H) (maxCheck0 dataSize : Int)
    (calls : List WorkSpace.Call) (maxCheck x : Int)
    (hI : WorkSpace.Initialize ops fuelI mem ws0 maxCheck0 dataSize = Outcome.returns ws1)
    (hf : 2 ≤ fuel) (hrun : WorkSpace.run ops fuel ws1 calls = some ws) :
    (∀ i, (ws.Reset ops maxCheck).nodeCheckStatus.m_hashTable.getD i 0 = 0) ∧
    (ws.Reset ops maxCheck).nodeCheckStatus.m_secondHash = false ∧
    hash_func (ws.Reset ops maxCheck).nodeCheckStatus (toUnsigned (x + 1))
      < (ws.Reset ops maxCheck).nodeCheckStatus.m_hashTable.length ∧
    _CheckAndSet fuel (ws.Reset ops maxCheck).nodeCheckStatus 0 (x + 1)
      = some (1, { (ws.Reset ops maxCheck).nodeCheckStatus with
          m_hashTable := (ws.Reset ops maxCheck).nodeCheckStatus.m_hashTable.set
            (hash_func (ws.Reset ops maxCheck).nodeCheckStatus (toUnsigned (x + 1))) (x + 1) }) ∧
    ((ws.Reset ops maxCheck).CheckAndSet fuel x).map (fun r => r.1) = some false := by
  obtain ⟨f, rfl⟩ := Nat.exists_eq_add_of_le hf
  rw [Nat.add_comm] at hrun ⊢
  have hI1 := WorkSpace.Initialize_returns_Init ops fuelI mem ws0 ws1 maxCheck0 dataSize hI
  obtain ⟨m, hm, hinv⟩ := WorkSpace.run_keeps_invariant ops f calls ws1
    (Init_returns_invariant fuelI mem _ _ maxCheck0 hI1).1
  rw [hrun] at hm
  cases hm
  obtain ⟨P, hw, -⟩ := hinv
  obtain ⟨hw1, hflag, hz⟩ := clear_wellFormed ws.nodeCheckStatus P hw
  have hcas := OptHashPosVector._CheckAndSet_of_empty (f + 1) ws.nodeCheckStatus.clear (x + 1)
    (hz _)
  refine ⟨hz, hflag, ?_, hcas, ?_⟩
  · have := hash_func_le ws.nodeCheckStatus.clear P hw1.1 hw1.2.1 (toUnsigned (x + 1))
    have hlen : ws.nodeCheckStatus.clear.m_hashTable.length = 2 * (P + 1) := hw1.2.2.1
    show hash_func ws.nodeCheckStatus.clear (toUnsigned (x + 1))
      < ws.nodeCheckStatus.clear.m_hashTable.length
    omega
  · have hpub : OptHashPosVector.CheckAndSet (f + 2) ws.nodeCheckStatus.clear x
        = some (false, { ws.nodeCheckStatus.clear with
            m_hashTable := ws.nodeCheckStatus.clear.m_hashTable.set
              (hash_func ws.nodeCheckStatus.clear (toUnsigned (x + 1))) (x + 1) }) := by
      unfold OptHashPosVector.CheckAndSet
      rw [hcas]
      rfl
    unfold WorkSpace.CheckAndSet
    rw [show (ws.Reset ops maxCheck).nodeCheckStatus = ws.nodeCheckStatus.clear from rfl, hpub]
    rfl

/-- C4 on the sample workspace after `Initialize(0, 5)` and `CheckAndSet` of the ids
0, 1, 2, 3, 4, where the second block is active and written: after `Reset(7)` the next
`CheckAndSet(3)` records id 3 again. -/
theorem C4_Reset_clears_visited_witness :
    WorkSpace.Initialize heapOps 1 sampleMem sampleWorkSpace 0 5
      = Outcome.returns sampleInitWorkSpace ∧
    WorkSpace.run heapOps 2 sampleInitWorkSpace
      [WorkSpace.Call.CheckAndSet 0, WorkSpace.Call.CheckAndSet 1, WorkSpace.Call.CheckAndSet 2,
        WorkSpace.Call.CheckAndSet 3, WorkSpace.Call.CheckAndSet 4] = some sampleFullWorkSpace ∧
    _CheckAndSet 2 (sampleFullWorkSpace.Reset heapOps 7).nodeCheckStatus 0 (3 + 1)
      = some (1, { m_secondHash := false, m_poolSize := 1, m_hashTable := [0, 4, 0, 0] }) := by
  have h1 : WorkSpace.Initialize heapOps 1 sampleMem sampleWorkSpace 0 5
      = Outcome.returns sampleInitWorkSpace := by decide
  have h2 : WorkSpace.run heapOps 2 sampleInitWorkSpace
      [WorkSpace.Call.CheckAndSet 0, WorkSpace.Call.CheckAndSet 1, WorkSpace.Call.CheckAndSet 2,
        WorkSpace.Call.CheckAndSet 3, WorkSpace.Call.CheckAndSet 4]
      = some sampleFullWorkSpace := by decide
  exact ⟨h1, h2, (C4_Reset_clears_visited heapOps 1 2 sampleMem sampleWorkSpace
    sampleInitWorkSpace sampleFullWorkSpace 0 5 _ 7 3 h1 (by decide) h2).2.2.2.1⟩

/-- C5 fails as stated: on the full sample table `CheckAndSet(4)` overflows (internal result
-1) and returns false, the very value `CheckAndSet(0)` returns on the empty table for a
first-time insertion (internal result 1). -/
theorem C5_counterexample :
    Init 1 sampleMem sampleVec 0 = Outcome.returns sampleInit0 ∧
    OptHashPosVector.run 2 sampleInit0
      [OptHashPosVector.Call.CheckAndSet 0, OptHashPosVector.Call.CheckAndSet 1,
        OptHashPosVector.Call.CheckAndSet 2, OptHashPosVector.Call.CheckAndSet 3]
      = some sampleFull ∧
    _CheckAndSet 2 sampleFull 0 (4 + 1) = some (-1, sampleFull) ∧
    (sampleFull.CheckAndSet 2 4).map (fun r => r.1) = some false ∧
    (_CheckAndSet 2 sampleInit0 0 (0 + 1)).map (fun r => r.1) = some 1 ∧
    (sampleInit0.CheckAndSet 2 0).map (fun r => r.1) = some false ∧
    (sampleFullWorkSpace.CheckAndSet 2 4).map (fun r => r.1)
      = (sampleInitWorkSpace.CheckAndSet 2 0).map (fun r => r.1) := by
  decide

/-- C5, amended: in a reachable state the internal `_CheckAndSet` has three results (1 recorded,
0 already present, -1 no slot in either block), but `CheckAndSet` returns a boolean that tells
two outcomes apart only: true for 0, false for both 1 and -1. `WorkSpace::CheckAndSet`
forwards that boolean. -/
theorem C5_CheckAndSet_two_valued (fuelI fuel : Nat) (mem : Nat → Int)
    (s0 s1 s : OptHashPosVector) (size : Int) (calls : List OptHashPosVector.Call) (x : Int)
    (hI : Init fuelI mem s0 size = Outcome.returns s1) (hf : 2 ≤ fuel)
    (hrun : OptHashPosVector.run fuel s1 calls = some s) :
    ∃ r s2, _CheckAndSet fuel s 0 (x + 1) = some (r, s2) ∧
      (r = 1 ∨ r = 0 ∨ r = -1) ∧
      (r = 0 → s.CheckAndSet fuel x = some (true, s2)) ∧
      (r = 1 → s.CheckAndSet fuel x = some (false, s2)) ∧
      (r = -1 → s.CheckAndSet fuel x = some (false, s2)) ∧
      ∀ (H : Type) (ws : WorkSpace H), ws.nodeCheckStatus = s →
        (ws.CheckAndSet fuel x).map (fun q => q.1)
          = (s.CheckAndSet fuel x).map (fun q => q.1) := by
  obtain ⟨f, rfl⟩ := Nat.exists_eq_add_of_le hf
  rw [Nat.add_comm] at hrun ⊢
  obtain ⟨m, hm, hinv⟩ := OptHashPosVector.run_invariant f calls s1
    (Init_returns_invariant fuelI mem s0 s1 size hI).1
  rw [hrun] at hm
  cases hm
  obtain ⟨P, hw, -⟩ := hinv
  obtain ⟨r, s2, hs, -, -, hcases⟩ := _CheckAndSet_spec f s P hw (x + 1)
  have hpub : s.CheckAndSet (f + 2) x = some (r == 0, s2) := by
    simp [OptHashPosVector.CheckAndSet, hs]
  refine ⟨r, s2, hs, ?_, ?_, ?_, ?_, ?_⟩
  · rcases hcases with ⟨h, -⟩ | ⟨h, -⟩ | ⟨h, -⟩
    · exact Or.inr (Or.inl h)
    · exact Or.inl h
    · exact Or.inr (Or.inr h)
  · intro h; rw [hpub, h]; rfl
  · intro h; rw [hpub, h]; rfl
  · intro h; rw [hpub, h]; rfl
  · intro H ws hws
    subst hws
    simp [WorkSpace.CheckAndSet, hpub]

/-- C5, amended, on the full sample table: `_CheckAndSet` for id 4 gives -1 and `CheckAndSet(4)`
returns false. -/
theorem C5_CheckAndSet_two_valued_witness :
    ∃ r s2, _CheckAndSet 2 sampleFull 0 (4 + 1) = some (r, s2) ∧
      (r = -1 → sampleFull.CheckAndSet 2 4 = some (false, s2)) ∧ r = -1 := by
  obtain ⟨r, s2, h1, -, -, -, h3, -⟩ := C5_CheckAndSet_two_valued 1 2 sampleMem sampleVec
    sampleInit0 sampleFull 0
    [OptHashPosVector.Call.CheckAndSet 0, OptHashPosVector.Call.CheckAndSet 1,
      OptHashPosVector.Call.CheckAndSet 2, OptHashPosVector.Call.CheckAndSet 3] 4
    (by decide) (by decide) (by decide)
  refine ⟨r, s2, h1, h3, ?_⟩
  have h4 : _CheckAndSet 2 sampleFull 0 (4 + 1) = some (-1, sampleFull) := by decide
  rw [h4] at h1
  simp only [Option.some.injEq, Prod.mk.injEq] at h1
  exact h1.1.symm

end SPTAG.COMMON
namespace SPTAG.COMMON
open OptHashPosVector

/-! ### `WorkSpace::Initialize` and `WorkSpace::Reset` -/

/-- C7: for `0 <= maxCheck` with `30 * maxCheck < 2^31`, `Initialize(maxCheck, nodeCount)`
returns; it has passed `maxCheck * 10` to `Resize` of `m_SPTQueue` and `maxCheck * 30` to
`Resize` of `m_NGQueue`, set `m_iContinuousLimit` to the quotient `maxCheck / 64`,
`m_iMaxCheck` to `maxCheck` and the three other counters to 0. -/
theorem C7_Initialize_counters {H : Type} (ops : HeapOps H) (fuel : Nat) (mem : Nat → Int)
    (ws : WorkSpace H) (maxCheck dataSize : Int)
    (h0 : 0 ≤ maxCheck) (h1 : 30 * maxCheck < 2 ^ 31) (hf : bitlength maxCheck.toNat < fuel) :
    ∃ s, Init fuel mem ws.nodeCheckStatus maxCheck = Outcome.returns s ∧
      WorkSpace.Initialize ops fuel mem ws maxCheck dataSize = Outcome.returns
        { nodeCheckStatus := s,
          m_iNumOfContinuousNoBetterPropagation := 0,
          m_iContinuousLimit := maxCheck / 64,
          m_iNumberOfTreeCheckedLeaves := 0,
          m_iNumberOfCheckedLeaves := 0,
          m_iMaxCheck := maxCheck,
          m_NGQueue := ops.Resize ws.m_NGQueue (maxCheck * 30),
          m_SPTQueue := ops.Resize ws.m_SPTQueue (maxCheck * 10) } := by
  have hI := Init_returns_of_nonneg fuel mem ws.nodeCheckStatus maxCheck h0 (by omega) hf
  refine ⟨_, hI, ?_⟩
  have h10 : ¬ INT_MAX < maxCheck * 10 := by unfold INT_MAX; omega
  have h30 : ¬ INT_MAX < maxCheck * 30 := by unfold INT_MAX; omega
  have hdiv : Int.tdiv maxCheck 64 = maxCheck / 64 := Int.tdiv_eq_ediv h0 (by norm_num)
  unfold WorkSpace.Initialize
  rw [hI]
  simp only [if_neg h10, if_neg h30, hdiv]

/-- C7 at `Initialize(640, 100000)`: capacities 6400 and 19200, limit 10. -/
theorem C7_Initialize_counters_witness :
    (0 : Int) ≤ 640 ∧ (30 : Int) * 640 < 2 ^ 31 ∧ bitlength (640 : Int).toNat < 11 ∧
    ∃ s, Init 11 sampleMem sampleVec 640 = Outcome.returns s ∧
      WorkSpace.Initialize heapOps 11 sampleMem sampleWorkSpace 640 100000 = Outcome.returns
        { nodeCheckStatus := s,
          m_iNumOfContinuousNoBetterPropagation := 0,
          m_iContinuousLimit := 10,
          m_iNumberOfTreeCheckedLeaves := 0,
          m_iNumberOfCheckedLeaves := 0,
          m_iMaxCheck := 640,
          m_NGQueue := { capacity := 19200, data := [] },
          m_SPTQueue := { capacity := 6400, data := [] } } := by
  have hb : bitlength (640 : Int).toNat = 10 := bitlength_eq 640 9 (by norm_num) (by norm_num)
  exact ⟨by decide, by decide, by rw [hb]; decide,
    C7_Initialize_counters heapOps 11 sampleMem sampleWorkSpace 640 100000 (by decide)
      (by decide) (by rw [hb]; decide)⟩

/-- C8: after `Reset(maxCheck)` with `maxCheck >= 0`, whatever the counters held before,
`m_iContinuousLimit` is the quotient `maxCheck / 64`, `m_iMaxCheck` is `maxCheck` and the three
other counters are 0; these are the counters every returning `Initialize(maxCheck, n)`
leaves. -/
theorem C8_Reset_counters {H : Type} (ops : HeapOps H) (ws : WorkSpace H) (maxCheck : Int)
    (h0 : 0 ≤ maxCheck) :
    (ws.Reset ops maxCheck).m_iContinuousLimit = maxCheck / 64 ∧
    (ws.Reset ops maxCheck).m_iMaxCheck = maxCheck ∧
    (ws.Reset ops maxCheck).m_iNumberOfTreeCheckedLeaves = 0 ∧
    (ws.Reset ops maxCheck).m_iNumberOfCheckedLeaves = 0 ∧
    (ws.Reset ops maxCheck).m_iNumOfContinuousNoBetterPropagation = 0 ∧
    ∀ (fuel : Nat) (mem : Nat → Int) (ws2 w : WorkSpace H) (n : Int),
      WorkSpace.Initialize ops fuel mem ws2 maxCheck n = Outcome.returns w →
      (ws.Reset ops maxCheck).m_iContinuousLimit = w.m_iContinuousLimit ∧
      (ws.Reset ops maxCheck).m_iMaxCheck = w.m_iMaxCheck ∧
      (ws.Reset ops maxCheck).m_iNumberOfTreeCheckedLeaves = w.m_iNumberOfTreeCheckedLeaves ∧
      (ws.Reset ops maxCheck).m_iNumberOfCheckedLeaves = w.m_iNumberOfCheckedLeaves ∧
      (ws.Reset ops maxCheck).m_iNumOfContinuousNoBetterPropagation
        = w.m_iNumOfContinuousNoBetterPropagation := by
  have hdiv : Int.tdiv maxCheck 64 = maxCheck / 64 := Int.tdiv_eq_ediv h0 (by norm_num)
  refine ⟨hdiv, rfl, rfl, rfl, rfl, ?_⟩
  intro fuel mem ws2 w n hw
  unfold WorkSpace.Initialize at hw
  split at hw
  · cases hw
  · cases hw
  · split at hw
    · cases hw
    · split at hw
      · cases hw
      · cases hw
        exact ⟨rfl, rfl, rfl, rfl, rfl⟩

/-- C8 at `Reset(640)` on a workspace with stale counters, compared with
`Initialize(640, 100000)`, which returns. -/
theorem C8_Reset_counters_witness :
    (0 : Int) ≤ 640 ∧
    (sampleWorkSpace.Reset heapOps 640).m_iContinuousLimit = 10 ∧
    (sampleWorkSpace.Reset heapOps 640).m_iMaxCheck = 640 ∧
    (sampleWorkSpace.Reset heapOps 640).m_iNumberOfTreeCheckedLeaves = 0 ∧
    (sampleWorkSpace.Reset heapOps 640).m_iNumberOfCheckedLeaves = 0 ∧
    (sampleWorkSpace.Reset heapOps 640).m_iNumOfContinuousNoBetterPropagation = 0 ∧
    ∃ w, WorkSpace.Initialize heapOps 11 sampleMem sampleWorkSpace 640 100000
        = Outcome.returns w ∧
      (sampleWorkSpace.Reset heapOps 640).m_iContinuousLimit = w.m_iContinuousLimit ∧
      (sampleWorkSpace.Reset heapOps 640).m_iMaxCheck = w.m_iMaxCheck := by
  obtain ⟨h1, h2, h3, h4, h5, h6⟩ := C8_Reset_counters heapOps sampleWorkSpace 640 (by decide)
  have hw : ∃ w, WorkSpace.Initialize heapOps 11 sampleMem sampleWorkSpace 640 100000
      = Outcome.returns w := ⟨_, rfl⟩
  obtain ⟨w, hw⟩ := hw
  obtain ⟨e1, e2, -⟩ := h6 11 sampleMem sampleWorkSpace w 100000 hw
  exact ⟨by decide, h1, h2, h3, h4, h5, w, hw, e1, e2⟩

end SPTAG.COMMON
namespace SPTAG.COMMON
open OptHashPosVector

/-! ### The capacity computed by `Init`: C9 and C10 -/

/-- C9 fails as stated: `Init(2^28)`, with `2^28 < 2^29`, never returns, whatever the fuel,
the allocated storage and the previous object: its loop ends after 29 shifts and the mask is
set to `2^30 - 1`, but the slot count `2^31` of the allocation is not an `int` and the call
stops there. -/
theorem C9_counterexample :
    (0 : Int) ≤ 268435456 ∧ (268435456 : Int) < 2 ^ 29 ∧
    InitLoop 30 268435456 0 = some 29 ∧
    Init 30 sampleMem sampleInit0 268435456
      = Outcome.fails (OptHashPosVector.mk true 1073741823 [0, 0, 0, 0]) ∧
    ∀ (fuel : Nat) (mem : Nat → Int) (s t : OptHashPosVector),
      Init fuel mem s 268435456 ≠ Outcome.returns t := by
  refine ⟨by decide, by decide, by decide, by decide, ?_⟩
  intro fuel mem s t h
  have := Init_returns_lt fuel mem s t 268435456 (by decide) h
  norm_num at this

/-- C9, amended: for `0 <= size < 2^28` and enough fuel, the loop of `Init(size)` ends after
`bitlength(size)` shifts and `Init` returns with `m_poolSize = 2^(bitlength(size)+1) - 1`;
`bitlength(size)` is the number of right shifts needed to reach 0, and `2^bitlength(size)` is
the smallest power of two strictly greater than `size`. -/
theorem C9_Init_capacity_formula (fuel : Nat) (mem : Nat → Int) (s : OptHashPosVector)
    (size : Int) (h0 : 0 ≤ size) (h1 : size < 2 ^ 28) (hf : bitlength size.toNat < fuel) :
    InitLoop fuel size 0 = some (bitlength size.toNat) ∧
    (∃ t, Init fuel mem s size = Outcome.returns t ∧
      t.m_poolSize = 2 ^ (bitlength size.toNat + 1) - 1) ∧
    size >>> bitlength size.toNat = 0 ∧
    (∀ k : Nat, k < bitlength size.toNat → size >>> k ≠ 0) ∧
    size < 2 ^ bitlength size.toNat ∧
    (∀ j : Nat, size < 2 ^ j → (2 : Int) ^ bitlength size.toNat ≤ 2 ^ j) := by
  have hl := InitLoop_of_nonneg fuel size h0 hf
  have hlt : size < 2 ^ bitlength size.toNat := by
    have := lt_two_pow_bitlength size.toNat
    have h2 : (size.toNat : Int) < ((2 ^ bitlength size.toNat : Nat) : Int) := by exact_mod_cast this
    rw [Int.toNat_of_nonneg h0] at h2
    simpa using h2
  have hmin : ∀ j : Nat, size < 2 ^ j → bitlength size.toNat ≤ j := by
    intro j hj
    apply bitlength_le_of_lt
    have : (size.toNat : Int) < 2 ^ j := by rw [Int.toNat_of_nonneg h0]; exact hj
    exact_mod_cast this
  have hret := Init_returns_of_nonneg fuel mem s size h0 h1 hf
  refine ⟨hl, ⟨_, hret, by rw [clear_poolSize]⟩, ?_, ?_,
    hlt, fun j hj => two_pow_le_int _ _ (hmin j hj)⟩
  · rw [Int.shiftRight_eq_div_pow]
    apply Int.ediv_eq_zero_of_lt h0
    simpa using hlt
  · intro k hk hz
    rw [Int.shiftRight_eq_div_pow] at hz
    have hpos : (0 : Int) < ((2 ^ k : Nat) : Int) := by positivity
    have hlt2 : size < 2 ^ k := by
      have := Int.lt_mul_ediv_self_add hpos (x := size)
      rw [hz] at this
      simpa using this
    have := hmin k hlt2
    omega

/-- C9, amended, at `size = 17`: `Init(17)` returns with `m_poolSize = 63`, a block of 64
slots. -/
theorem C9_Init_capacity_formula_witness :
    (0 : Int) ≤ 17 ∧ (17 : Int) < 2 ^ 28 ∧ bitlength (17 : Int).toNat < 6 ∧
    ∃ t, Init 6 sampleMem sampleVec 17 = Outcome.returns t ∧ t.m_poolSize = 63 := by
  have hb : bitlength (17 : Int).toNat = 5 := bitlength_eq 17 4 (by norm_num) (by norm_num)
  have h := C9_Init_capacity_formula 6 sampleMem sampleVec 17 (by decide) (by decide)
    (by rw [hb]; decide)
  rw [hb] at h
  exact ⟨by decide, by decide, by rw [hb]; decide, h.2.1⟩

end SPTAG.COMMON
namespace SPTAG.COMMON
open OptHashPosVector

/-! ### Overflow and the frame of `CheckAndSet`: C11 and C12 -/

/-- C11: in a reachable state, if `CheckAndSet(x)` with `0 <= x` ends in overflow (internal
result -1), then the call changed no slot and not the mask, it left `m_secondHash` set, the
16 slots it examined are all occupied by values other than `x + 1` (indeed `x + 1` is in no
slot at all), and after any further `CheckAndSet` calls without a `clear`, `CheckAndSet(x)`
ends in overflow again. -/
theorem C11_overflow_leaves_table_intact (fuelI fuel : Nat) (mem : Nat → Int)
    (s0 s1 s s2 : OptHashPosVector) (size : Int) (calls : List OptHashPosVector.Call) (x : Int)
    (hI : Init fuelI mem s0 size = Outcome.returns s1) (hf : 2 ≤ fuel)
    (hrun : OptHashPosVector.run fuel s1 calls = some s) (hx : 0 ≤ x)
    (hov : _CheckAndSet fuel s 0 (x + 1) = some (-1, s2)) :
    s2.m_hashTable = s.m_hashTable ∧ s2.m_poolSize = s.m_poolSize ∧ s2.m_secondHash = true ∧
    x + 1 ∉ s2.m_hashTable ∧
    (_CheckAndSetLog fuel s 0 (x + 1)).2.length = 16 ∧
    (∀ p ∈ (_CheckAndSetLog fuel s 0 (x + 1)).2,
      s2.m_hashTable.getD p 0 ≠ 0 ∧ s2.m_hashTable.getD p 0 ≠ x + 1) ∧
    ∀ ys : List Int, ∃ s3,
      OptHashPosVector.run fuel s2 (ys.map OptHashPosVector.Call.CheckAndSet) = some s3 ∧
      ∃ s4, _CheckAndSet fuel s3 0 (x + 1) = some (-1, s4) := by
  obtain ⟨f, rfl⟩ := Nat.exists_eq_add_of_le hf
  rw [Nat.add_comm] at hrun hov ⊢
  obtain ⟨hfind, k, -, -, hw⟩ := reachable_facts fuelI f mem s0 s1 s size calls hI hrun
  obtain ⟨h1, h2, hs2⟩ := (_CheckAndSet_overflow_iff f s _ hw (x + 1) s2).mp hov
  have hl1 := probeLoopLog_snd s 0 (x + 1) m_maxLoop 0 (hash_func s (toUnsigned (x + 1)))
  have hl2 := probeLoopLog_snd { s with m_secondHash := true } (2 ^ k - 1 + 1) (x + 1)
    m_maxLoop 0 (hash_func s (toUnsigned (x + 1)))
  rw [probeLoopLog_fst] at hl1 hl2
  have hlog : (_CheckAndSetLog (f + 2) s 0 (x + 1)).2
      = (probeIndices s m_maxLoop 0 (hash_func s (toUnsigned (x + 1)))).map (fun i => 0 + i) ++
        (probeIndices s m_maxLoop 0 (hash_func s (toUnsigned (x + 1)))).map
          (fun i => 2 ^ k - 1 + 1 + i) := by
    rw [_CheckAndSetLog_two_blocks f s _ hw.1 (x + 1), h1]
    simp only
    rw [hl1.2.1 h1, hl2.2.1 h2]
    rfl
  have hnot : x + 1 ∉ s.m_hashTable := by
    intro hmem
    obtain ⟨t, ht⟩ := hfind (x + 1) (by omega) hmem
    rw [← _CheckAndSet_fuel f s _ hw.1, hov] at ht
    simp at ht
  subst hs2
  refine ⟨rfl, rfl, rfl, hnot, ?_, ?_, ?_⟩
  · rw [hlog]
    simp [length_probeIndices, m_maxLoop]
  · intro p hp
    rw [hlog, List.mem_append] at hp
    rcases hp with hp | hp
    · obtain ⟨i, hi, rfl⟩ := List.mem_map.mp hp
      exact (probeLoop_eq_none_iff s 0 (x + 1) _ _ _).mp h1 i hi
    · obtain ⟨i, hi, rfl⟩ := List.mem_map.mp hp
      exact (probeLoop_eq_none_iff { s with m_secondHash := true } _ (x + 1) _ _ _).mp h2 i hi
  · intro ys
    obtain ⟨hinv2, hext2⟩ := _CheckAndSet_invariant f s ⟨_, hw, hfind⟩ (x + 1) (-1) _ hov
    obtain ⟨s3, hr3, hext3, ⟨P3, hw3, -⟩⟩ := run_checkAndSet_extends f ys _ hinv2
    have hP3 : P3 = 2 ^ k - 1 := by
      have e := hw3.1
      rw [hext3.1] at e
      have e2 : (s.m_poolSize : Int) = ((2 ^ k - 1 : Nat) : Int) := hw.1
      have e3 : ((P3 : Nat) : Int) = ((2 ^ k - 1 : Nat) : Int) := e.symm.trans e2
      exact_mod_cast e3
    subst hP3
    exact ⟨s3, hr3, _, _CheckAndSet_overflow_of_extends f s s3 _ hw hw3 (hext2.trans hext3)
      (x + 1) _ hov⟩

/-- C11 on the full sample table: `CheckAndSet(4)` overflows, and it overflows again after
`CheckAndSet` of the ids 7 and 4. -/
theorem C11_overflow_leaves_table_intact_witness :
    _CheckAndSet 2 sampleFull 0 (4 + 1) = some (-1, sampleFull) ∧
    (4 : Int) + 1 ∉ sampleFull.m_hashTable ∧
    ∃ s3, OptHashPosVector.run 2 sampleFull
        ([7, 4].map OptHashPosVector.Call.CheckAndSet) = some s3 ∧
      ∃ s4, _CheckAndSet 2 s3 0 (4 + 1) = some (-1, s4) := by
  have hov : _CheckAndSet 2 sampleFull 0 (4 + 1) = some (-1, sampleFull) := by decide
  have h := C11_overflow_leaves_table_intact 1 2 sampleMem sampleVec sampleInit0 sampleFull
    sampleFull 0
    [OptHashPosVector.Call.CheckAndSet 0, OptHashPosVector.Call.CheckAndSet 1,
      OptHashPosVector.Call.CheckAndSet 2, OptHashPosVector.Call.CheckAndSet 3] 4
    (by decide) (by decide) (by decide) (by decide) hov
  exact ⟨hov, h.2.2.2.1, h.2.2.2.2.2.2 [7, 4]⟩

/-- C12: in a reachable state a `CheckAndSet(x)` call returns, keeps the number of slots,
leaves every non-empty slot as it was, and changes at most one slot: a slot that changes was
empty before and holds `x + 1` after. -/
theorem C12_CheckAndSet_frame (fuelI fuel : Nat) (mem : Nat → Int)
    (s0 s1 s : OptHashPosVector) (size : Int) (calls : List OptHashPosVector.Call) (x : Int)
    (hI : Init fuelI mem s0 size = Outcome.returns s1) (hf : 2 ≤ fuel)
    (hrun : OptHashPosVector.run fuel s1 calls = some s) :
    ∃ b s2, s.CheckAndSet fuel x = some (b, s2) ∧
      s2.m_hashTable.length = s.m_hashTable.length ∧
      (∀ i, s.m_hashTable.getD i 0 ≠ 0 → s2.m_hashTable.getD i 0 = s.m_hashTable.getD i 0) ∧
      (∀ i, s2.m_hashTable.getD i 0 ≠ s.m_hashTable.getD i 0 →
        s.m_hashTable.getD i 0 = 0 ∧ s2.m_hashTable.getD i 0 = x + 1) ∧
      (∀ i j, s2.m_hashTable.getD i 0 ≠ s.m_hashTable.getD i 0 →
        s2.m_hashTable.getD j 0 ≠ s.m_hashTable.getD j 0 → i = j) := by
  obtain ⟨f, rfl⟩ := Nat.exists_eq_add_of_le hf
  rw [Nat.add_comm] at hrun ⊢
  obtain ⟨-, k, -, -, hw⟩ := reachable_facts fuelI f mem s0 s1 s size calls hI hrun
  obtain ⟨r, s2, hs, hext, -, hcases⟩ := _CheckAndSet_spec f s _ hw (x + 1)
  refine ⟨r == 0, s2, by simp [OptHashPosVector.CheckAndSet, hs], hext.2.1, hext.2.2, ?_⟩
  have hsame : s2.m_hashTable = s.m_hashTable →
      (∀ i, s2.m_hashTable.getD i 0 ≠ s.m_hashTable.getD i 0 →
        s.m_hashTable.getD i 0 = 0 ∧ s2.m_hashTable.getD i 0 = x + 1) ∧
      (∀ i j, s2.m_hashTable.getD i 0 ≠ s.m_hashTable.getD i 0 →
        s2.m_hashTable.getD j 0 ≠ s.m_hashTable.getD j 0 → i = j) := by
    intro e
    rw [e]
    exact ⟨fun i h => absurd rfl h, fun i j h => absurd rfl h⟩
  rcases hcases with ⟨-, -, -, htbl⟩ | ⟨-, p, hp, hp0, htbl⟩ | ⟨-, htbl⟩
  · exact hsame htbl
  · have hchg : ∀ i, s2.m_hashTable.getD i 0 ≠ s.m_hashTable.getD i 0 → i = p := by
      intro i hi
      by_contra hne
      apply hi
      rw [htbl]
      exact getD_set_of_ne _ _ _ _ (fun e => hne e.symm)
    constructor
    · intro i hi
      have := hchg i hi
      subst this
      exact ⟨hp0, by rw [htbl]; exact getD_set_self _ _ _ hp⟩
    · intro i j hi hj
      rw [hchg i hi, hchg j hj]
  · exact hsame htbl

/-- C12 on the full sample table, where five ids were offered to four slots: `CheckAndSet(4)`
changes no slot. -/
theorem C12_CheckAndSet_frame_witness :
    ∃ b s2, sampleFull.CheckAndSet 2 4 = some (b, s2) ∧
      ∀ i, sampleFull.m_hashTable.getD i 0 ≠ 0 →
        s2.m_hashTable.getD i 0 = sampleFull.m_hashTable.getD i 0 := by
  obtain ⟨b, s2, h1, -, h2, -⟩ := C12_CheckAndSet_frame 1 2 sampleMem sampleVec sampleInit0
    sampleFull 0
    [OptHashPosVector.Call.CheckAndSet 0, OptHashPosVector.Call.CheckAndSet 1,
      OptHashPosVector.Call.CheckAndSet 2, OptHashPosVector.Call.CheckAndSet 3] 4
    (by decide) (by decide) (by decide)
  exact ⟨b, s2, h1, h2⟩

end SPTAG.COMMON
namespace SPTAG.COMMON
open OptHashPosVector

/-! ### Index safety and the second block: C14 and C15 -/

/-- C14 fails as stated: `Init(2^28)`, with `2^28 < 2^29`, sets the mask `2^30 - 1` and then
stops at the allocation, whose slot count `2^31` is not an `int`; the table keeps the slots
it had (none here), not `2 * (capacityMask + 1)`. -/
theorem C14_counterexample :
    (268435456 : Int) < 2 ^ 29 ∧
    Init 30 sampleMem sampleVec 268435456
      = Outcome.fails { m_secondHash := true, m_poolSize := 1073741823, m_hashTable := [] } ∧
    ((Init 30 sampleMem sampleVec 268435456).state?.map
      fun s => ((s.m_hashTable.length : Int), 2 * (s.m_poolSize + 1)))
      = some (0, 2147483648) := by
  decide

/-- C14, amended: for `0 <= size < 2^28`, `Init(size)` returns with a table of
`2 * (capacityMask + 1)` slots, and in every state reached from it by public calls, for every
value `v` of `x + 1`: `hash_func` and `hash_func2` return values in `[0, capacityMask]`;
`_CheckAndSet` returns with fuel for two activations (one recursive call); it touches at most
8 slots in block one, all in `[0, capacityMask]`, then at most 8 slots in block two, all in
`[capacityMask + 1, 2 * capacityMask + 1]`; every touched slot is inside the table. -/
theorem C14_index_safety (fuelI fuel : Nat) (mem : Nat → Int) (s0 : OptHashPosVector)
    (size : Int) (h0 : 0 ≤ size) (h1 : size < 2 ^ 28) (hfI : bitlength size.toNat < fuelI)
    (hf : 2 ≤ fuel) :
    ∃ s1, Init fuelI mem s0 size = Outcome.returns s1 ∧
      (s1.m_hashTable.length : Int) = 2 * (s1.m_poolSize + 1) ∧
      ∀ (calls : List OptHashPosVector.Call) (s : OptHashPosVector),
        OptHashPosVector.run fuel s1 calls = some s →
        ∃ P : Nat, s.m_poolSize = (P : Int) ∧ s.m_hashTable.length = 2 * (P + 1) ∧
          (∀ idx : Nat, hash_func s idx ≤ P) ∧
          (∀ (idx : Nat) (loop : Int), hash_func2 s idx loop ≤ P) ∧
          ∀ v : Int, ∃ (r : Int) (s2 : OptHashPosVector) (log1 log2 : List Nat),
            _CheckAndSetLog fuel s 0 v = (some (r, s2), log1 ++ log2) ∧
            _CheckAndSetLog 2 s 0 v = (some (r, s2), log1 ++ log2) ∧
            log1.length ≤ 8 ∧ log2.length ≤ 8 ∧
            (∀ p ∈ log1, p ≤ P) ∧
            (∀ p ∈ log2, P + 1 ≤ p ∧ p ≤ 2 * P + 1) ∧
            ∀ p ∈ log1 ++ log2, p < s.m_hashTable.length := by
  obtain ⟨f, rfl⟩ := Nat.exists_eq_add_of_le hf
  have hI := Init_returns_of_nonneg fuelI mem s0 size h0 h1 hfI
  refine ⟨_, hI, ?_, ?_⟩
  · obtain ⟨⟨P, hw, -⟩, -, -⟩ := Init_returns_invariant fuelI mem s0 _ size hI
    rw [hw.2.2.1, hw.1]
    push_cast
    ring
  · intro calls s hrun
    rw [Nat.add_comm] at hrun ⊢
    obtain ⟨-, k, -, -, hw⟩ := reachable_facts fuelI f mem s0 _ s size calls hI hrun
    refine ⟨2 ^ k - 1, hw.1, hw.2.2.1, fun idx => hash_func_le s _ hw.1 hw.2.1 idx,
      fun idx loop => hash_func2_le s _ hw.1 hw.2.1 idx loop, ?_⟩
    intro v
    obtain ⟨r, s2, hs, -⟩ := _CheckAndSet_spec f s _ hw v
    obtain ⟨log1, log2, hlog, hp1, -, hp2, -⟩ := _CheckAndSetLog_spec f s _ hw v
    have hle := probeIndices_le s _ hw.1 hw.2.1 m_maxLoop 0 _
      (hash_func_le s _ hw.1 hw.2.1 (toUnsigned v))
    have hlen := length_probeIndices s m_maxLoop 0 (hash_func s (toUnsigned v))
    have heq : _CheckAndSetLog (f + 2) s 0 v = (some (r, s2), log1 ++ log2) :=
      Prod.ext (by rw [_CheckAndSetLog_fst, hs]) hlog
    have hb1 : ∀ p ∈ log1, p ≤ 2 ^ k - 1 := fun p hp => hle p (hp1.subset hp)
    have hb2 : ∀ p ∈ log2, 2 ^ k - 1 + 1 ≤ p ∧ p ≤ 2 * (2 ^ k - 1) + 1 := by
      intro p hp
      obtain ⟨i, hi, rfl⟩ := List.mem_map.mp (hp2.subset hp)
      have := hle i hi
      omega
    refine ⟨r, s2, log1, log2, heq, ?_, ?_, ?_, hb1, hb2, ?_⟩
    · rw [← _CheckAndSetLog_fuel f s _ hw.1 v, heq]
    · have := hp1.length_le
      rw [hlen] at this
      exact this
    · have := hp2.length_le
      rw [List.length_map, hlen] at this
      exact this
    · intro p hp
      rw [hw.2.2.1]
      rcases List.mem_append.mp hp with hp | hp
      · have := hb1 p hp
        omega
      · have := hb2 p hp
        omega

/-- C14, amended, at `Init(3)`: the call returns with mask 7 and 16 slots, and on the fresh
table `_CheckAndSet` for the value 21 touches slot 4 only. -/
theorem C14_index_safety_witness :
    (0 : Int) ≤ 3 ∧ (3 : Int) < 2 ^ 28 ∧
    ∃ s1, Init 3 sampleMem sampleVec 3 = Outcome.returns s1 ∧
      (s1.m_hashTable.length : Int) = 2 * (s1.m_poolSize + 1) ∧
      s1.m_poolSize = 7 ∧ (_CheckAndSetLog 2 s1 0 21).2 = [4] := by
  have hb : bitlength (3 : Int).toNat = 2 := bitlength_eq 3 1 (by norm_num) (by norm_num)
  obtain ⟨s1, hI, hlen, -⟩ := C14_index_safety 3 2 sampleMem sampleVec 3 (by decide)
    (by decide) (by rw [hb]; decide) (by decide)
  have hI2 : Init 3 sampleMem sampleVec 3 = Outcome.returns
      { m_secondHash := false, m_poolSize := 7, m_hashTable := List.replicate 16 0 } := by
    decide
  rw [hI2] at hI
  cases hI
  exact ⟨by decide, by decide, _, hI2, hlen, rfl, by decide⟩

/-- C15: in a reachable state `_CheckAndSet` for `x + 1` touches block one along an initial
part `log1` of the probe sequence; it touches block two (`log2` non-empty) exactly when all 8
probed slots of block one hold values other than 0 and other than `x + 1`, and then
`m_secondHash` is set and `log2` is an initial part of the same probe sequence shifted by
`capacityMask + 1`; otherwise `m_secondHash` and every slot of block two are unchanged. -/
theorem C15_second_block_fallback (fuelI fuel : Nat) (mem : Nat → Int)
    (s0 s1 s : OptHashPosVector) (size : Int) (calls : List OptHashPosVector.Call) (x : Int)
    (hI : Init fuelI mem s0 size = Outcome.returns s1) (hf : 2 ≤ fuel)
    (hrun : OptHashPosVector.run fuel s1 calls = some s) :
    ∃ (P : Nat) (r : Int) (s2 : OptHashPosVector) (log1 log2 : List Nat),
      s.m_poolSize = (P : Int) ∧
      _CheckAndSetLog fuel s 0 (x + 1) = (some (r, s2), log1 ++ log2) ∧
      log1 <+: probeIndices s m_maxLoop 0 (hash_func s (toUnsigned (x + 1))) ∧
      log1 ≠ [] ∧ (∀ p ∈ log1, p ≤ P) ∧
      log2 <+: (probeIndices s m_maxLoop 0 (hash_func s (toUnsigned (x + 1)))).map
        (fun i => P + 1 + i) ∧
      (log2 ≠ [] ↔ ∀ i ∈ probeIndices s m_maxLoop 0 (hash_func s (toUnsigned (x + 1))),
        s.m_hashTable.getD i 0 ≠ 0 ∧ s.m_hashTable.getD i 0 ≠ x + 1) ∧
      (log2 ≠ [] → s2.m_secondHash = true) ∧
      (log2 = [] → s2.m_secondHash = s.m_secondHash ∧
        ∀ i, P + 1 ≤ i → s2.m_hashTable.getD i 0 = s.m_hashTable.getD i 0) := by
  obtain ⟨f, rfl⟩ := Nat.exists_eq_add_of_le hf
  rw [Nat.add_comm] at hrun ⊢
  obtain ⟨-, k, -, -, hw⟩ := reachable_facts fuelI f mem s0 s1 s size calls hI hrun
  obtain ⟨r, s2, hs, -⟩ := _CheckAndSet_spec f s _ hw (x + 1)
  obtain ⟨log1, log2, hlog, hp1, hne1, hp2, hiff, hnone⟩ :=
    _CheckAndSetLog_spec f s _ hw (x + 1)
  have hidx := hash_func_le s _ hw.1 hw.2.1 (toUnsigned (x + 1))
  have hle := probeIndices_le s _ hw.1 hw.2.1 m_maxLoop 0 _ hidx
  refine ⟨2 ^ k - 1, r, s2, log1, log2, hw.1,
    Prod.ext (by rw [_CheckAndSetLog_fst, hs]) hlog, hp1, hne1,
    fun p hp => hle p (hp1.subset hp), hp2, hiff, ?_, ?_⟩
  · intro h2
    have hn := hnone.mp h2
    rw [_CheckAndSet_two_blocks f s _ hw.1 (x + 1), hn] at hs
    simp only at hs
    cases h3 : probeLoop { s with m_secondHash := true } (2 ^ k - 1 + 1) (x + 1) m_maxLoop 0
        (hash_func s (toUnsigned (x + 1))) with
    | some rs =>
      obtain ⟨r3, s3⟩ := rs
      rw [h3] at hs
      simp only [Option.some.injEq, Prod.mk.injEq] at hs
      obtain ⟨-, rfl⟩ := hs
      rcases probeLoop_some { s with m_secondHash := true } _ hw.1 hw.2.1 _ (x + 1) _ _ _
        r3 s3 hidx h3 with ⟨-, h, -⟩ | ⟨-, p, -, -, -, h⟩
      · rw [h]
      · rw [h]
    | none =>
      rw [h3] at hs
      simp only [Option.some.injEq, Prod.mk.injEq] at hs
      rw [← hs.2]
  · intro h2
    have hn : probeLoop s 0 (x + 1) m_maxLoop 0 (hash_func s (toUnsigned (x + 1))) ≠ none :=
      fun h => (hnone.mpr h) h2
    rw [_CheckAndSet_two_blocks f s _ hw.1 (x + 1)] at hs
    cases h3 : probeLoop s 0 (x + 1) m_maxLoop 0 (hash_func s (toUnsigned (x + 1))) with
    | none => exact absurd h3 hn
    | some rs =>
      obtain ⟨r3, s3⟩ := rs
      rw [h3] at hs
      simp only [Option.some.injEq, Prod.mk.injEq] at hs
      obtain ⟨-, rfl⟩ := hs
      rcases probeLoop_some s _ hw.1 hw.2.1 0 (x + 1) _ _ _ r3 s3 hidx h3 with
        ⟨-, h, -⟩ | ⟨-, p, -, hp, -, h⟩
      · rw [h]
        exact ⟨rfl, fun _ _ => rfl⟩
      · rw [h]
        refine ⟨rfl, fun i hi => ?_⟩
        exact getD_set_of_ne _ _ _ _ (by omega)

/-- C15 on the sample table after `Init(0)` and `CheckAndSet` of the ids 0 and 1, where block
one is full: `_CheckAndSet` for the value 3 examines the slots 0, 0, 1, 1, 0, 0, 1, 1 of
block one, then slot 2 of block two, and sets `m_secondHash`. -/
theorem C15_second_block_fallback_witness :
    _CheckAndSetLog 2 { m_secondHash := false, m_poolSize := 1, m_hashTable := [1, 2, 0, 0] } 0
        (2 + 1)
      = (some (1, { m_secondHash := true, m_poolSize := 1, m_hashTable := [1, 2, 3, 0] }),
          [0, 0, 1, 1, 0, 0, 1, 1] ++ [2]) ∧
    ∃ (P : Nat) (r : Int) (s2 : OptHashPosVector) (log1 log2 : List Nat),
      _CheckAndSetLog 2 { m_secondHash := false, m_poolSize := 1, m_hashTable := [1, 2, 0, 0] }
        0 (2 + 1) = (some (r, s2), log1 ++ log2) ∧
      (∀ p ∈ log1, p ≤ P) ∧ (log2 ≠ [] → s2.m_secondHash = true) := by
  refine ⟨by decide, ?_⟩
  obtain ⟨P, r, s2, log1, log2, -, h1, -, -, h2, -, -, h3, -⟩ :=
    C15_second_block_fallback 1 2 sampleMem sampleVec sampleInit0
      { m_secondHash := false, m_poolSize := 1, m_hashTable := [1, 2, 0, 0] } 0
      [OptHashPosVector.Call.CheckAndSet 0, OptHashPosVector.Call.CheckAndSet 1] 2
      (by decide) (by decide) (by decide)
  exact ⟨P, r, s2, log1, log2, h1, h2, h3⟩

end SPTAG.COMMON
namespace SPTAG.COMMON
open OptHashPosVector

/-! ### The primary slot, `Init`, `Reset`, `clear` and the probe sequence: C16 to C20 -/

/-- C16: on a freshly initialised visited set (`t = s1`) or a cleared one (`t = s.clear` for a
reachable `s`) with mask `M`, every slot is empty and `_CheckAndSet` for `v = n + 1` with
`0 <= n < 2^31 - 1` records `v` (result 1) in the block-one slot
`((v * 99991 + rotateLeft32(v, 2) + 101) mod 2^32) & M`; the table afterwards, also after the
public `CheckAndSet(n)`, is the empty table with that one slot set, so no other slot is
written. -/
theorem C16_primary_slot (fuelI fuel : Nat) (mem : Nat → Int)
    (s0 s1 s t : OptHashPosVector) (size : Int) (calls : List OptHashPosVector.Call) (n : Int)
    (hI : Init fuelI mem s0 size = Outcome.returns s1) (hf : 2 ≤ fuel)
    (hrun : OptHashPosVector.run fuel s1 calls = some s) (ht : t = s1 ∨ t = s.clear)
    (hn0 : 0 ≤ n) (hn1 : n < 2 ^ 31 - 1) :
    ∃ M : Nat, t.m_poolSize = (M : Int) ∧
      t.m_hashTable = List.replicate (2 * (M + 1)) 0 ∧
      ((((n + 1).toNat * 99991 + rotateLeft32 (n + 1).toNat 2 + 101) % 4294967296) &&& M) ≤ M ∧
      _CheckAndSet fuel t 0 (n + 1) = some (1, OptHashPosVector.mk t.m_secondHash t.m_poolSize
        ((List.replicate (2 * (M + 1)) 0).set
          ((((n + 1).toNat * 99991 + rotateLeft32 (n + 1).toNat 2 + 101) % 4294967296) &&& M)
          (n + 1))) ∧
      (t.CheckAndSet fuel n).map (fun r => r.2.m_hashTable) = some
        ((List.replicate (2 * (M + 1)) 0).set
          ((((n + 1).toNat * 99991 + rotateLeft32 (n + 1).toNat 2 + 101) % 4294967296) &&& M)
          (n + 1)) := by
  obtain ⟨f, rfl⟩ := Nat.exists_eq_add_of_le hf
  rw [Nat.add_comm 2 f] at hrun ⊢
  have hfacts : ∃ M : Nat, WellFormed t M ∧ ∀ i, t.m_hashTable.getD i 0 = 0 := by
    rcases ht with rfl | rfl
    · obtain ⟨⟨P, hw, -⟩, -, hz⟩ := Init_returns_invariant fuelI mem s0 t size hI
      exact ⟨P, hw, hz⟩
    · obtain ⟨-, k, -, -, hw⟩ := reachable_facts fuelI f mem s0 s1 s size calls hI hrun
      obtain ⟨hw1, -, hz⟩ := clear_wellFormed s _ hw
      exact ⟨_, hw1, hz⟩
  obtain ⟨M, hw, hz⟩ := hfacts
  have htbl : t.m_hashTable = List.replicate (2 * (M + 1)) 0 := by
    have := eq_replicate_of_all_zero t.m_hashTable hz
    rwa [hw.2.2.1] at this
  have hv : (n + 1).toNat < 4294967296 := by omega
  have hhash : hash_func t (toUnsigned (n + 1))
      = (((n + 1).toNat * 99991 + rotateLeft32 (n + 1).toNat 2 + 101) % 4294967296) &&& M := by
    unfold hash_func
    rw [toUnsigned_succ n hn0 hn1, hw.1, toUnsigned_natCast M hw.2.1,
      _rotl_two_eq_rotateLeft32 _ hv]
    congr 1
    omega
  have hcas := OptHashPosVector._CheckAndSet_of_empty (f + 1) t (n + 1) (hz _)
  rw [hhash] at hcas
  refine ⟨M, hw.1, htbl, Nat.and_le_right, ?_, ?_⟩
  · rw [hcas, ← htbl]
  · unfold OptHashPosVector.CheckAndSet
    rw [hcas, ← htbl]
    rfl

/-- C16 on the visited set right after `Init(3)` (mask 7): id 20, value 21, goes to slot
`(21 * 99991 + 84 + 101) mod 2^32 & 7 = 4`. -/
theorem C16_primary_slot_witness :
    ∃ M : Nat, ((7 : Int) = (M : Int)) ∧
      _CheckAndSet 2 (OptHashPosVector.mk false 7 (List.replicate 16 0)) 0 (20 + 1)
        = some (1, OptHashPosVector.mk false 7
            ((List.replicate (2 * (M + 1)) 0).set
              ((((20 + 1 : Int).toNat * 99991 + rotateLeft32 (20 + 1 : Int).toNat 2 + 101)
                % 4294967296) &&& M) (20 + 1))) ∧
      (((21 * 99991 + rotateLeft32 21 2 + 101) % 4294967296) &&& 7) = 4 := by
  have hb : bitlength (3 : Int).toNat = 2 := bitlength_eq 3 1 (by norm_num) (by norm_num)
  obtain ⟨M, h1, -, -, h2, -⟩ := C16_primary_slot 3 2 sampleMem sampleVec
    (OptHashPosVector.mk false 7 (List.replicate 16 0))
    (OptHashPosVector.mk false 7 (List.replicate 16 0))
    (OptHashPosVector.mk false 7 (List.replicate 16 0))
    3 [] 20 (by decide) (by decide) (by decide) (Or.inl rfl) (by decide) (by decide)
  exact ⟨M, h1, h2, by decide⟩

/-- C17 fails as stated: `Init(2^28)` on the full sample table stops at the allocation; the
object keeps its four occupied slots and has `m_secondHash` set, with mask `2^30 - 1`. -/
theorem C17_counterexample :
    (0 : Int) ≤ 268435456 ∧ (268435456 : Int) < 2 ^ 29 ∧
    Init 30 sampleMem sampleFull 268435456
      = Outcome.fails (OptHashPosVector.mk true 1073741823 [1, 2, 3, 4]) := by
  decide

/-- C17, amended: for `0 <= size < 2^28`, whatever the object and the allocated storage held
before, `Init(size)` returns with a table of two blocks of `capacityMask + 1` slots, every slot
0, and `m_secondHash` unset. -/
theorem C17_state_after_Init (fuel : Nat) (mem : Nat → Int) (s0 : OptHashPosVector)
    (size : Int) (h0 : 0 ≤ size) (h1 : size < 2 ^ 28) (hf : bitlength size.toNat < fuel) :
    ∃ (s1 : OptHashPosVector) (M : Nat), Init fuel mem s0 size = Outcome.returns s1 ∧
      s1.m_poolSize = (M : Int) ∧
      s1.m_hashTable.length = (M + 1) + (M + 1) ∧
      s1.m_hashTable = List.replicate (M + 1) 0 ++ List.replicate (M + 1) 0 ∧
      (∀ i, s1.m_hashTable.getD i 0 = 0) ∧
      s1.m_secondHash = false := by
  have hI := Init_returns_of_nonneg fuel mem s0 size h0 h1 hf
  obtain ⟨⟨P, hw, -⟩, hflag, hz⟩ := Init_returns_invariant fuel mem s0 _ size hI
  refine ⟨_, P, hI, hw.1, by rw [hw.2.2.1]; omega, ?_, hz, hflag⟩
  have := eq_replicate_of_all_zero _ hz
  rw [hw.2.2.1] at this
  rw [this, ← List.replicate_add]
  congr 1
  omega

/-- C17, amended, at `Init(0)` on the full sample table with non-zero fresh storage: the
result is the empty table of two blocks of two slots. -/
theorem C17_state_after_Init_witness :
    (0 : Int) ≤ 0 ∧ (0 : Int) < 2 ^ 28 ∧
    Init 1 sampleMem sampleFull 0 = Outcome.returns sampleInit0 ∧
    ∃ (s1 : OptHashPosVector) (M : Nat), Init 1 sampleMem sampleFull 0 = Outcome.returns s1 ∧
      s1.m_hashTable = List.replicate (M + 1) 0 ++ List.replicate (M + 1) 0 ∧
      s1.m_secondHash = false := by
  have hb : bitlength (0 : Int).toNat = 0 := bitlength_zero
  obtain ⟨s1, M, h1, -, -, h2, -, h3⟩ := C17_state_after_Init 1 sampleMem sampleFull 0
    (by decide) (by decide) (by rw [hb]; decide)
  exact ⟨by decide, by decide, by decide, s1, M, h1, h2, h3⟩

/-- C18: `Reset(maxCheck)`, on any workspace and for any `maxCheck`, leaves `m_poolSize` and
the number of table slots as they were; the heaps are the old heaps after their `clear`, and
on the spec's heap `clear` keeps the capacity. -/
theorem C18_Reset_keeps_storage {H : Type} (ops : HeapOps H) (ws : WorkSpace H)
    (maxCheck : Int) :
    (ws.Reset ops maxCheck).nodeCheckStatus.m_poolSize = ws.nodeCheckStatus.m_poolSize ∧
    (ws.Reset ops maxCheck).nodeCheckStatus.m_hashTable.length
      = ws.nodeCheckStatus.m_hashTable.length ∧
    (ws.Reset ops maxCheck).m_SPTQueue = ops.clear ws.m_SPTQueue ∧
    (ws.Reset ops maxCheck).m_NGQueue = ops.clear ws.m_NGQueue ∧
    ∀ w : WorkSpace (Heap HeapCell),
      (w.Reset heapOps maxCheck).m_SPTQueue.capacity = w.m_SPTQueue.capacity ∧
      (w.Reset heapOps maxCheck).m_NGQueue.capacity = w.m_NGQueue.capacity := by
  refine ⟨clear_poolSize _, ?_, rfl, rfl, fun w => ⟨rfl, rfl⟩⟩
  show ws.nodeCheckStatus.clear.m_hashTable.length = _
  unfold OptHashPosVector.clear
  split <;> exact length_memsetZero _ _

/-- C19: in a reachable state the second block is all zero while `m_secondHash` is unset, so
`clear()` leaves the same object as zeroing both blocks and unsetting the flag: all
`2 * (capacityMask + 1)` slots are 0 and `m_secondHash` is unset. -/
theorem C19_lazy_clear_is_full_clear (fuelI fuel : Nat) (mem : Nat → Int)
    (s0 s1 s : OptHashPosVector) (size : Int) (calls : List OptHashPosVector.Call)
    (hI : Init fuelI mem s0 size = Outcome.returns s1) (hf : 2 ≤ fuel)
    (hrun : OptHashPosVector.run fuel s1 calls = some s) :
    ∃ M : Nat, s.m_poolSize = (M : Int) ∧
      (s.m_secondHash = false → ∀ i, M + 1 ≤ i → s.m_hashTable.getD i 0 = 0) ∧
      s.clear = s.clearBoth ∧
      s.clear.m_hashTable = List.replicate (2 * (M + 1)) 0 ∧
      s.clear.m_secondHash = false := by
  obtain ⟨f, rfl⟩ := Nat.exists_eq_add_of_le hf
  rw [Nat.add_comm] at hrun
  obtain ⟨-, k, -, -, hw⟩ := reachable_facts fuelI f mem s0 s1 s size calls hI hrun
  obtain ⟨hw1, hflag, hz⟩ := clear_wellFormed s _ hw
  have htbl : s.clear.m_hashTable = List.replicate (2 * (2 ^ k - 1 + 1)) 0 := by
    have := eq_replicate_of_all_zero _ hz
    rwa [hw1.2.2.1] at this
  have h2 : (2 * (s.m_poolSize + 1)).toNat = 2 * (2 ^ k - 1 + 1) := by rw [hw.1]; omega
  have hboth : s.clearBoth.m_hashTable = List.replicate (2 * (2 ^ k - 1 + 1)) 0 := by
    have hzb : ∀ i, s.clearBoth.m_hashTable.getD i 0 = 0 := by
      intro i
      show (memsetZero s.m_hashTable (2 * (s.m_poolSize + 1)).toNat).getD i 0 = 0
      rw [getD_memsetZero, h2]
      split
      · rfl
      · rw [List.getD_eq_getElem?_getD, List.getElem?_eq_none (by have := hw.2.2.1; omega)]
        rfl
    have := eq_replicate_of_all_zero _ hzb
    have hlen : s.clearBoth.m_hashTable.length = 2 * (2 ^ k - 1 + 1) := by
      show (memsetZero s.m_hashTable (2 * (s.m_poolSize + 1)).toNat).length = _
      rw [length_memsetZero, hw.2.2.1]
    rwa [hlen] at this
  refine ⟨2 ^ k - 1, hw.1, hw.2.2.2, ?_, htbl, hflag⟩
  have e1 : s.clear
      = OptHashPosVector.mk s.clear.m_secondHash s.clear.m_poolSize s.clear.m_hashTable := rfl
  have e2 : s.clearBoth = OptHashPosVector.mk false s.m_poolSize s.clearBoth.m_hashTable := rfl
  rw [e1, e2, hflag, clear_poolSize, htbl, hboth]

/-- C19 on the sample table after `Init(0)` and `CheckAndSet` of the ids 0 and 1, where the
second block was never activated: `clear()` zeroes the first block only and the result is the
table with all four slots 0. -/
theorem C19_lazy_clear_is_full_clear_witness :
    ∃ M : Nat, ((1 : Int) = (M : Int)) ∧
      OptHashPosVector.clear
          { m_secondHash := false, m_poolSize := 1, m_hashTable := [1, 2, 0, 0] }
        = OptHashPosVector.clearBoth
          { m_secondHash := false, m_poolSize := 1, m_hashTable := [1, 2, 0, 0] } := by
  obtain ⟨M, h1, -, h2, -⟩ := C19_lazy_clear_is_full_clear 1 2 sampleMem sampleVec sampleInit0
    { m_secondHash := false, m_poolSize := 1, m_hashTable := [1, 2, 0, 0] } 0
    [OptHashPosVector.Call.CheckAndSet 0, OptHashPosVector.Call.CheckAndSet 1]
    (by decide) (by decide) (by decide)
  exact ⟨M, h1, h2⟩

end SPTAG.COMMON
namespace SPTAG.COMMON
open OptHashPosVector

/-! ### The candidate heap and the probe sequence: C13 and C20 -/

/-- C20: in a reachable state with mask `M`, for a value `v` with primary slot `h`: the step
added for probe index 0 is 0; the 8 probes of a block examine, in order, `h`, `h`,
`(h+1)&M`, `(h+3)&M`, `(h+6)&M`, `(h+10)&M`, `(h+15)&M`, `(h+21)&M`, at most 7 distinct slots;
`_CheckAndSet` touches an initial part of that sequence in block one and of the same sequence
shifted by `M + 1` in block two, at most 14 distinct slots; and it overflows exactly when all
those slots of both blocks hold values other than 0 and other than `v`. -/
theorem C20_probe_sequence (fuelI fuel : Nat) (mem : Nat → Int)
    (s0 s1 s : OptHashPosVector) (size : Int) (calls : List OptHashPosVector.Call) (v : Int)
    (hI : Init fuelI mem s0 size = Outcome.returns s1) (hf : 2 ≤ fuel)
    (hrun : OptHashPosVector.run fuel s1 calls = some s) :
    ∃ (M h : Nat) (log1 log2 : List Nat), s.m_poolSize = (M : Int) ∧
      h = hash_func s (toUnsigned v) ∧
      hash_func2 s h 0 = h ∧
      probeIndices s m_maxLoop 0 h =
        [h, h, (h + 1) &&& M, (h + 3) &&& M, (h + 6) &&& M, (h + 10) &&& M, (h + 15) &&& M,
          (h + 21) &&& M] ∧
      (probeIndices s m_maxLoop 0 h).toFinset.card ≤ 7 ∧
      (_CheckAndSetLog fuel s 0 v).2 = log1 ++ log2 ∧
      log1 <+: probeIndices s m_maxLoop 0 h ∧
      log2 <+: (probeIndices s m_maxLoop 0 h).map (fun i => M + 1 + i) ∧
      (_CheckAndSetLog fuel s 0 v).2.toFinset.card ≤ 14 ∧
      ((∃ s2, _CheckAndSet fuel s 0 v = some (-1, s2)) ↔
        ∀ i ∈ probeIndices s m_maxLoop 0 h,
          (s.m_hashTable.getD i 0 ≠ 0 ∧ s.m_hashTable.getD i 0 ≠ v) ∧
          (s.m_hashTable.getD (M + 1 + i) 0 ≠ 0 ∧ s.m_hashTable.getD (M + 1 + i) 0 ≠ v)) := by
  obtain ⟨f, rfl⟩ := Nat.exists_eq_add_of_le hf
  rw [Nat.add_comm 2 f] at hrun ⊢
  obtain ⟨-, k, -, hk, hw⟩ := reachable_facts fuelI f mem s0 s1 s size calls hI hrun
  have hidx := hash_func_le s _ hw.1 hw.2.1 (toUnsigned v)
  have height := probeIndices_eight s k hw.1 hk _ hidx
  obtain ⟨log1, log2, hlog, hp1, -, hp2, -, -⟩ := _CheckAndSetLog_spec f s _ hw v
  have hcard : (probeIndices s m_maxLoop 0 (hash_func s (toUnsigned v))).toFinset.card ≤ 7 := by
    rw [height]
    simp only [List.toFinset_cons, Finset.insert_idem]
    refine le_trans (Finset.card_insert_le _ _) ?_
    have := List.toFinset_card_le
      [(hash_func s (toUnsigned v) + 1) &&& (2 ^ k - 1),
        (hash_func s (toUnsigned v) + 3) &&& (2 ^ k - 1),
        (hash_func s (toUnsigned v) + 6) &&& (2 ^ k - 1),
        (hash_func s (toUnsigned v) + 10) &&& (2 ^ k - 1),
        (hash_func s (toUnsigned v) + 15) &&& (2 ^ k - 1),
        (hash_func s (toUnsigned v) + 21) &&& (2 ^ k - 1)]
    simp only [List.toFinset_cons, List.length_cons, List.length_nil] at this
    omega
  have hstep : hash_func2 s (hash_func s (toUnsigned v)) 0 = hash_func s (toUnsigned v) := by
    have hself : hash_func s (toUnsigned v) &&& (2 ^ k - 1) = hash_func s (toUnsigned v) := by
      rw [Nat.and_pow_two_sub_one_eq_mod]
      have : 1 ≤ 2 ^ k := Nat.one_le_two_pow
      exact Nat.mod_eq_of_lt (by omega)
    have := hash_func2_mask s k hw.1 hk (hash_func s (toUnsigned v)) 0 0 (by norm_num)
      (by norm_num)
    rwa [Nat.add_zero, hself] at this
  refine ⟨2 ^ k - 1, _, log1, log2, hw.1, rfl, hstep, height, hcard, hlog, hp1, hp2, ?_, ?_⟩
  · rw [hlog, List.toFinset_append]
    refine le_trans (Finset.card_union_le _ _) ?_
    have hsub : ∀ a b : List Nat, a ⊆ b → a.toFinset ⊆ b.toFinset :=
      fun a b hab x hx => List.mem_toFinset.mpr (hab (List.mem_toFinset.mp hx))
    have c1 : log1.toFinset.card ≤ 7 :=
      le_trans (Finset.card_le_card (hsub _ _ hp1.subset)) hcard
    have c2 : log2.toFinset.card ≤ 7 := by
      refine le_trans (Finset.card_le_card (hsub _ _ hp2.subset)) ?_
      have himg : ((probeIndices s m_maxLoop 0 (hash_func s (toUnsigned v))).map
          (fun i => 2 ^ k - 1 + 1 + i)).toFinset ⊆
          (probeIndices s m_maxLoop 0 (hash_func s (toUnsigned v))).toFinset.image
            (fun i => 2 ^ k - 1 + 1 + i) := by
        intro y hy
        obtain ⟨a, ha, rfl⟩ := List.mem_map.mp (List.mem_toFinset.mp hy)
        exact Finset.mem_image_of_mem _ (List.mem_toFinset.mpr ha)
      exact le_trans (Finset.card_le_card himg) (le_trans Finset.card_image_le hcard)
    omega
  · constructor
    · rintro ⟨s2, hs2⟩
      obtain ⟨h1, h2, -⟩ := (_CheckAndSet_overflow_iff f s _ hw v s2).mp hs2
      intro i hi
      have a1 := (probeLoop_eq_none_iff s 0 v _ _ _).mp h1 i hi
      have a2 := (probeLoop_eq_none_iff { s with m_secondHash := true } _ v _ _ _).mp h2 i hi
      simp only [Nat.zero_add] at a1
      exact ⟨a1, a2⟩
    · intro hall
      refine ⟨{ s with m_secondHash := true }, ?_⟩
      rw [_CheckAndSet_overflow_iff f s _ hw v]
      refine ⟨?_, ?_, rfl⟩
      · rw [probeLoop_eq_none_iff]
        intro i hi
        simpa only [Nat.zero_add] using (hall i hi).1
      · rw [probeLoop_eq_none_iff]
        intro i hi
        exact (hall i hi).2

/-- C20 on the visited set after `Init(3)` (mask 7), empty table: for the value 21 the primary
slot is 4 and the probe sequence is 4, 4, 5, 7, 2, 6, 3, 1. -/
theorem C20_probe_sequence_witness :
    ∃ (M h : Nat) (log1 log2 : List Nat), ((7 : Int) = (M : Int)) ∧
      h = hash_func (OptHashPosVector.mk false 7 (List.replicate 16 0)) (toUnsigned 21) ∧
      probeIndices (OptHashPosVector.mk false 7 (List.replicate 16 0)) m_maxLoop 0 h =
        [h, h, (h + 1) &&& M, (h + 3) &&& M, (h + 6) &&& M, (h + 10) &&& M, (h + 15) &&& M,
          (h + 21) &&& M] ∧
      (_CheckAndSetLog 2 (OptHashPosVector.mk false 7 (List.replicate 16 0)) 0 21).2
        = log1 ++ log2 ∧
      probeIndices (OptHashPosVector.mk false 7 (List.replicate 16 0)) m_maxLoop 0 4
        = [4, 4, 5, 7, 2, 6, 3, 1] := by
  obtain ⟨M, h, log1, log2, h1, h2, -, h3, -, h4, -⟩ := C20_probe_sequence 3 2 sampleMem
    sampleVec (OptHashPosVector.mk false 7 (List.replicate 16 0))
    (OptHashPosVector.mk false 7 (List.replicate 16 0)) 3 [] 21
    (by decide) (by decide) (by decide)
  exact ⟨M, h, log1, log2, h1, h2, h3, h4, by decide⟩

end SPTAG.COMMON
